import Mathlib

/-!
# Direct n-body simulation: embedding of `vector2.h` and `nbody.cpp`

The source works on `float`.  The program is embedded twice.

The exact embedding abstracts the scalar type: every definition is written over an
arbitrary linearly ordered field `α` together with a square-root function
`sqrt : α → α` (the `sqrt` of `<math.h>`).  Theorems about "exact real arithmetic"
instantiate `α := ℝ` and `sqrt := Real.sqrt`.

The binary32 embedding (namespaces `F32` and `Binary32`) runs the same functions on
IEEE-754 single precision values, with rounding, overflow, underflow and NaN; it is
used to evaluate the program where it departs from exact arithmetic.

* a failed `assert` is the result `none`;
* the `std::vector<Particle>` is a `List (Particle α)`, mutated in place by
  `List.set`;
* a `for (j = 0; j < p_bodies.size(); ++j)` loop is a fold over `List.range`,
  whose body re-checks the loop guard against the current collection.
-/

/-- The class `Vector2` of `vector2.h`: two scalars `X`, `Y`. -/
structure Vector2 (α : Type) where
  X : α
  Y : α

/-- The struct `Particle` of `nbody.cpp`. -/
structure Particle (α : Type) where
  Position : Vector2 α
  Velocity : Vector2 α
  Mass : α

namespace Vector2

variable {α : Type} [LinearOrderedField α]

/-- The constructor `Vector2(float p_fValue)`: both components get the value. -/
def splat (p_fValue : α) : Vector2 α := ⟨p_fValue, p_fValue⟩

/-- The member `operator*(float)`: `Vector2(p_fValue * X, p_fValue * Y)`. -/
def mul (v : Vector2 α) (p_fValue : α) : Vector2 α :=
  ⟨p_fValue * v.X, p_fValue * v.Y⟩

/-- The member `operator/(float)`: `assert(p_fValue != 0.f)`, then
`*this * (1.0f / p_fValue)`.  A failed assertion is `none`. -/
def div (v : Vector2 α) (p_fValue : α) : Option (Vector2 α) :=
  if p_fValue = 0 then none else some (v.mul (1 / p_fValue))

/-- The member `operator+(const Vector2&)`. -/
def add (v p_vector : Vector2 α) : Vector2 α :=
  ⟨v.X + p_vector.X, v.Y + p_vector.Y⟩

/-- The member `operator-(const Vector2&)`. -/
def sub (v p_vector : Vector2 α) : Vector2 α :=
  ⟨v.X - p_vector.X, v.Y - p_vector.Y⟩

/-- The member `operator-(void)`. -/
def neg (v : Vector2 α) : Vector2 α := ⟨-v.X, -v.Y⟩

/-- The member `operator/=(float)`: `*this = *this / p_fValue`; the result is the
new value of `*this`, or `none` when the assertion of `operator/` fails. -/
def divAssign (v : Vector2 α) (p_fValue : α) : Option (Vector2 α) :=
  v.div p_fValue

/-- The member `operator+=(const Vector2&)`: the new value of `*this`. -/
def addAssign (v p_vector : Vector2 α) : Vector2 α := v.add p_vector

/-- The member `Length`: `sqrt(X * X + Y * Y)`. -/
def Length (sqrt : α → α) (v : Vector2 α) : α := sqrt (v.X * v.X + v.Y * v.Y)

/-- The member `Equals(const Vector2&, const float p_epsilon)`: two early returns
of `false`, then `true`. -/
def Equals (v p_vector : Vector2 α) (p_epsilon : α) : Bool :=
  if |v.X - p_vector.X| > p_epsilon then false
  else if |v.Y - p_vector.Y| > p_epsilon then false
  else true

/-- The member `operator==`: `Equals(p_vector)`, with the default argument
`p_epsilon = 1e-5f`. -/
def equalTo (v p_vector : Vector2 α) : Bool := v.Equals p_vector 1e-5

/-- The member `operator!=`: `!(*this == p_vector)`. -/
def notEqualTo (v p_vector : Vector2 α) : Bool := !(v.equalTo p_vector)

end Vector2

section NBody

variable {α : Type} [LinearOrderedField α]

/-- Line 73 of `nbody.cpp`: the clamped distance
`std::max<float>(0.5f * (p2.Mass + p1.Mass), fabs(direction.Length()))`. -/
def clampedDistance (sqrt : α → α) (p1 p2 : Particle α) : α :=
  max (0.5 * (p2.Mass + p1.Mass)) |(p2.Position.sub p1.Position).Length sqrt|

/-- Lines 70-76 of `nbody.cpp`: the body of the inner loop for one `k ≠ j`.
`force += direction / (distance * distance * distance) * p2.Mass`. -/
def accumulate (sqrt : α → α) (p1 p2 : Particle α) (force : Vector2 α) :
    Option (Vector2 α) :=
  let direction := p2.Position.sub p1.Position
  let distance := clampedDistance sqrt p1 p2
  (direction.div (distance * distance * distance)).map
    fun q => force.addAssign (q.mul p2.Mass)

/-- Lines 61-77 of `nbody.cpp`: `force = 0.f` followed by the inner loop over `k`,
with `p1` the body at index `j`. -/
def innerLoop (sqrt : α → α) (p_bodies : List (Particle α)) (j : Nat)
    (p1 : Particle α) : Option (Vector2 α) :=
  (List.range p_bodies.length).foldlM
    (fun force k =>
      if k = j then some force
      else if h : k < p_bodies.length then accumulate sqrt p1 p_bodies[k] force
      else some force)
    (Vector2.splat 0)

/-- Lines 57-84 of `nbody.cpp`: one iteration of the outer loop, for index `j`. -/
def forceStep (sqrt : α → α) (p_gravitationalTerm p_deltaT : α)
    (p_bodies : List (Particle α)) (j : Nat) : Option (List (Particle α)) :=
  if h : j < p_bodies.length then
    let p1 := p_bodies[j]
    (innerLoop sqrt p_bodies j p1).map fun force =>
      let acceleration := force.mul p_gravitationalTerm
      p_bodies.set j
        { p1 with Velocity := p1.Velocity.addAssign (acceleration.mul p_deltaT) }
  else some p_bodies

/-- The function `ComputeForces` of `nbody.cpp`; `none` when an assertion fails. -/
def ComputeForces (sqrt : α → α) (p_bodies : List (Particle α))
    (p_gravitationalTerm p_deltaT : α) : Option (List (Particle α)) :=
  (List.range p_bodies.length).foldlM
    (fun bodies j => forceStep sqrt p_gravitationalTerm p_deltaT bodies j) p_bodies

/-- Line 94 of `nbody.cpp`: one iteration of the loop of `MoveBodies`. -/
def moveStep (p_deltaT : α) (p_bodies : List (Particle α)) (j : Nat) :
    List (Particle α) :=
  if h : j < p_bodies.length then
    let p := p_bodies[j]
    p_bodies.set j { p with Position := p.Position.addAssign (p.Velocity.mul p_deltaT) }
  else p_bodies

/-- The function `MoveBodies` of `nbody.cpp`. -/
def MoveBodies (p_bodies : List (Particle α)) (p_deltaT : α) : List (Particle α) :=
  (List.range p_bodies.length).foldl (fun bodies j => moveStep p_deltaT bodies j) p_bodies

/-- Lines 179-181 of `nbody.cpp`: the body of the iteration loop of `main`,
`ComputeForces(bodies, gTerm, deltaT); MoveBodies(bodies, deltaT);`. -/
def simulationStep (sqrt : α → α) (gTerm deltaT : α) (bodies : List (Particle α)) :
    Option (List (Particle α)) :=
  (ComputeForces sqrt bodies gTerm deltaT).map fun moved => MoveBodies moved deltaT

/-- Lines 176-187 of `nbody.cpp`: the iteration loop of `main`, run for
`maxIteration` iterations (persistence left out). -/
def simulate (sqrt : α → α) (gTerm deltaT : α) :
    Nat → List (Particle α) → Option (List (Particle α))
  | 0, bodies => some bodies
  | maxIteration + 1, bodies =>
    (simulationStep sqrt gTerm deltaT bodies).bind (simulate sqrt gTerm deltaT maxIteration)

end NBody


/-! ## Binary32 arithmetic

The exact embedding above idealises `float`.  For the claims that are not worded over
exact arithmetic the program is embedded a second time, over a model of IEEE-754
binary32 with round-to-nearest, ties-to-even: a finite value is
`(-1)^neg * mant * 2^exp` with `mant < 2^24` and `-149 ≤ exp ≤ 104`, normal values
have `2^23 ≤ mant`, subnormal values and zero have `exp = -149`. -/

/-- A binary32 value: finite `(-1)^neg * mant * 2^exp`, an infinity, or NaN. -/
inductive F32 where
  | finite (neg : Bool) (mant : Nat) (exp : Int)
  | inf (neg : Bool)
  | nan
deriving DecidableEq

namespace F32

/-- Number of binary digits of `n`, by halving at most `fuel` times. -/
def bitLengthAux : Nat → Nat → Nat
  | 0, _ => 0
  | fuel + 1, n => if n = 0 then 0 else bitLengthAux fuel (n / 2) + 1

/-- Number of binary digits of `n` (`0` for `n = 0`). -/
def bitLength (n : Nat) : Nat := bitLengthAux n n

/-- Rounding to binary32, to nearest with ties to even, of the exact value
`(-1)^neg * (m + f) * 2^e`, where `0 ≤ f < 1` and `sticky` says whether `f ≠ 0`
(`sticky` is only used with `m` of more than 24 binary digits).  The last place of the
result is `t = max (e + bitLength m - 24) (-149)`; a result beyond the largest finite
value `(2^24 - 1) * 2^104` is an infinity, a result below half the smallest subnormal
is zero. -/
def round (neg : Bool) (m : Nat) (e : Int) (sticky : Bool) : F32 :=
  if m = 0 then finite neg 0 (-149)
  else
    let t : Int := max (e + (bitLength m : Int) - 24) (-149)
    if t ≤ e then
      if t > 104 then inf neg else finite neg (m * 2 ^ (e - t).toNat) t
    else
      let sh : Nat := (t - e).toNat
      let q : Nat := m / 2 ^ sh
      let r : Nat := m % 2 ^ sh
      let half : Nat := 2 ^ (sh - 1)
      let q1 : Nat :=
        if half < r then q + 1
        else if r = half ∧ (sticky = true ∨ q % 2 = 1) then q + 1
        else q
      if q1 = 2 ^ 24 then
        (if t + 1 > 104 then inf neg else finite neg (2 ^ 23) (t + 1))
      else
        (if t > 104 then inf neg else finite neg q1 t)

/-- The binary32 value nearest to the natural number `n`. -/
def ofNat (n : Nat) : F32 := round false n 0 false

/-- The binary32 value nearest to `2^k`. -/
def pow2 (k : Int) : F32 := round false 1 k false

/-- Unary minus. -/
def neg : F32 → F32
  | finite s m e => finite (!s) m e
  | inf s => inf (!s)
  | nan => nan

/-- The function `fabs`. -/
def abs : F32 → F32
  | finite _ m e => finite false m e
  | inf _ => inf false
  | nan => nan

/-- The test `x == 0.f`: true for both zeros, false for NaN. -/
def isZero : F32 → Bool
  | finite _ m _ => m == 0
  | _ => false

/-- The integer `(-1)^s * n`. -/
def signed (s : Bool) (n : Nat) : Int := if s then -(n : Int) else (n : Int)

/-- Addition: the exact sum, rounded; `inf + (-inf)` is NaN. -/
def add : F32 → F32 → F32
  | nan, _ => nan
  | _, nan => nan
  | inf s, inf t => if s = t then inf s else nan
  | inf s, finite _ _ _ => inf s
  | finite _ _ _, inf t => inf t
  | finite s1 m1 e1, finite s2 m2 e2 =>
    let e : Int := min e1 e2
    let c : Int := signed s1 (m1 * 2 ^ (e1 - e).toNat) + signed s2 (m2 * 2 ^ (e2 - e).toNat)
    if c = 0 then finite (s1 && s2) 0 (-149)
    else round (decide (c < 0)) c.natAbs e false

/-- Subtraction. -/
def sub (a b : F32) : F32 := add a (neg b)

/-- Multiplication: the exact product, rounded; `inf * 0` is NaN. -/
def mul : F32 → F32 → F32
  | nan, _ => nan
  | _, nan => nan
  | inf s, inf t => inf (xor s t)
  | inf s, finite t m _ => if m = 0 then nan else inf (xor s t)
  | finite s m _, inf t => if m = 0 then nan else inf (xor s t)
  | finite s1 m1 e1, finite s2 m2 e2 => round (xor s1 s2) (m1 * m2) (e1 + e2) false

/-- Division: the quotient to 64 extra binary digits with a sticky flag, rounded;
`x / 0` is an infinity for `x ≠ 0`, `0 / 0` and `inf / inf` are NaN. -/
def div : F32 → F32 → F32
  | nan, _ => nan
  | _, nan => nan
  | inf _, inf _ => nan
  | inf s, finite t _ _ => inf (xor s t)
  | finite s _ _, inf t => finite (xor s t) 0 (-149)
  | finite s1 m1 e1, finite s2 m2 e2 =>
    if m2 = 0 then (if m1 = 0 then nan else inf (xor s1 s2))
    else round (xor s1 s2) (m1 * 2 ^ 64 / m2) (e1 - e2 - 64) (decide (m1 * 2 ^ 64 % m2 ≠ 0))

/-- Integer square root, digit by digit from bit `b - 1` down. -/
def isqrtAux (n : Nat) : Nat → Nat → Nat
  | 0, acc => acc
  | b + 1, acc =>
    if (acc + 2 ^ b) * (acc + 2 ^ b) ≤ n then isqrtAux n b (acc + 2 ^ b) else isqrtAux n b acc

/-- The largest `r` with `r * r ≤ n`. -/
def isqrt (n : Nat) : Nat := isqrtAux n (bitLength n / 2 + 1) 0

/-- The function `sqrt`: the integer square root of the mantissa scaled by an even
power of two, with a sticky flag, rounded; NaN for negative arguments. -/
def sqrt : F32 → F32
  | nan => nan
  | inf s => if s then nan else inf false
  | finite s m e =>
    if m = 0 then finite s 0 (-149)
    else if s then nan
    else
      let k : Nat := if e % 2 = 0 then 64 else 65
      let n : Nat := m * 2 ^ k
      round false (isqrt n) ((e - k) / 2) (decide (isqrt n * isqrt n ≠ n))

/-- The comparison `a < b`; false when either side is NaN. -/
def lt : F32 → F32 → Bool
  | nan, _ => false
  | _, nan => false
  | inf s, inf t => s && !t
  | inf s, finite _ _ _ => s
  | finite _ _ _, inf t => !t
  | finite s1 m1 e1, finite s2 m2 e2 =>
    let e : Int := min e1 e2
    decide (signed s1 (m1 * 2 ^ (e1 - e).toNat) < signed s2 (m2 * 2 ^ (e2 - e).toNat))

/-- The comparison `a <= b`; false when either side is NaN. -/
def le : F32 → F32 → Bool
  | nan, _ => false
  | _, nan => false
  | inf s, inf t => s || !t
  | inf s, finite _ _ _ => s
  | finite _ _ _, inf t => !t
  | finite s1 m1 e1, finite s2 m2 e2 =>
    let e : Int := min e1 e2
    decide (signed s1 (m1 * 2 ^ (e1 - e).toNat) ≤ signed s2 (m2 * 2 ^ (e2 - e).toNat))

/-- The function `std::max<float>(a, b)`: `(a < b) ? b : a`. -/
def max (a b : F32) : F32 := if lt a b then b else a

end F32

/-! ## The program over binary32

The same functions as above, with every `float` operation of the source replaced by
the binary32 operation. -/

deriving instance DecidableEq for Vector2

deriving instance DecidableEq for Particle

namespace Binary32

/-- The literal `0.f`. -/
def zero : F32 := F32.ofNat 0

/-- The literal `1.0f`. -/
def one : F32 := F32.ofNat 1

/-- The literal `0.5f`. -/
def half : F32 := F32.pow2 (-1)

/-- The default argument `1e-5f`: the binary32 value nearest to `1/100000`. -/
def defaultEpsilon : F32 := F32.div (F32.ofNat 1) (F32.ofNat 100000)

/-- The member `operator*(float)`: `Vector2(p_fValue * X, p_fValue * Y)`. -/
def mul (v : Vector2 F32) (p_fValue : F32) : Vector2 F32 :=
  ⟨F32.mul p_fValue v.X, F32.mul p_fValue v.Y⟩

/-- The member `operator/(float)`: `assert(p_fValue != 0.f)`, then
`*this * (1.0f / p_fValue)`.  A failed assertion is `none`. -/
def div (v : Vector2 F32) (p_fValue : F32) : Option (Vector2 F32) :=
  if F32.isZero p_fValue then none else some (mul v (F32.div one p_fValue))

/-- The member `operator+(const Vector2&)`, also used for `operator+=`. -/
def add (v p_vector : Vector2 F32) : Vector2 F32 :=
  ⟨F32.add v.X p_vector.X, F32.add v.Y p_vector.Y⟩

/-- The member `operator-(const Vector2&)`. -/
def sub (v p_vector : Vector2 F32) : Vector2 F32 :=
  ⟨F32.sub v.X p_vector.X, F32.sub v.Y p_vector.Y⟩

/-- The member `Length`: `sqrt(X * X + Y * Y)`. -/
def Length (v : Vector2 F32) : F32 :=
  F32.sqrt (F32.add (F32.mul v.X v.X) (F32.mul v.Y v.Y))

/-- The member `Equals`: `fabs(X - p_vector.X) > p_epsilon` and
`fabs(Y - p_vector.Y) > p_epsilon` return `false`, otherwise `true`. -/
def Equals (v p_vector : Vector2 F32) (p_epsilon : F32) : Bool :=
  if F32.lt p_epsilon (F32.abs (F32.sub v.X p_vector.X)) then false
  else if F32.lt p_epsilon (F32.abs (F32.sub v.Y p_vector.Y)) then false
  else true

/-- The member `operator==`: `Equals(p_vector)` with the default `1e-5f`. -/
def equalTo (v p_vector : Vector2 F32) : Bool := Equals v p_vector defaultEpsilon

/-- Line 73 of `nbody.cpp`:
`std::max<float>(0.5f * (p2.Mass + p1.Mass), fabs(direction.Length()))`. -/
def clampedDistance (p1 p2 : Particle F32) : F32 :=
  F32.max (F32.mul half (F32.add p2.Mass p1.Mass))
    (F32.abs (Length (sub p2.Position p1.Position)))

/-- Lines 70-76 of `nbody.cpp`: the body of the inner loop for one `k ≠ j`. -/
def accumulate (p1 p2 : Particle F32) (force : Vector2 F32) : Option (Vector2 F32) :=
  let direction := sub p2.Position p1.Position
  let distance := clampedDistance p1 p2
  (div direction (F32.mul (F32.mul distance distance) distance)).map
    fun q => add force (mul q p2.Mass)

/-- Lines 61-77 of `nbody.cpp`: `force = 0.f` followed by the inner loop over `k`. -/
def innerLoop (p_bodies : List (Particle F32)) (j : Nat) (p1 : Particle F32) :
    Option (Vector2 F32) :=
  (List.range p_bodies.length).foldlM
    (fun force k =>
      if k = j then some force
      else if h : k < p_bodies.length then accumulate p1 p_bodies[k] force
      else some force)
    ⟨zero, zero⟩

/-- Lines 57-84 of `nbody.cpp`: one iteration of the outer loop, for index `j`. -/
def forceStep (p_gravitationalTerm p_deltaT : F32) (p_bodies : List (Particle F32))
    (j : Nat) : Option (List (Particle F32)) :=
  if h : j < p_bodies.length then
    let p1 := p_bodies[j]
    (innerLoop p_bodies j p1).map fun force =>
      let acceleration := mul force p_gravitationalTerm
      p_bodies.set j { p1 with Velocity := add p1.Velocity (mul acceleration p_deltaT) }
  else some p_bodies

/-- The function `ComputeForces` of `nbody.cpp`; `none` when an assertion fails. -/
def ComputeForces (p_bodies : List (Particle F32)) (p_gravitationalTerm p_deltaT : F32) :
    Option (List (Particle F32)) :=
  (List.range p_bodies.length).foldlM
    (fun bodies j => forceStep p_gravitationalTerm p_deltaT bodies j) p_bodies

/-- Line 94 of `nbody.cpp`: one iteration of the loop of `MoveBodies`. -/
def moveStep (p_deltaT : F32) (p_bodies : List (Particle F32)) (j : Nat) :
    List (Particle F32) :=
  if h : j < p_bodies.length then
    let p := p_bodies[j]
    p_bodies.set j { p with Position := add p.Position (mul p.Velocity p_deltaT) }
  else p_bodies

/-- The function `MoveBodies` of `nbody.cpp`. -/
def MoveBodies (p_bodies : List (Particle F32)) (p_deltaT : F32) : List (Particle F32) :=
  (List.range p_bodies.length).foldl (fun bodies j => moveStep p_deltaT bodies j) p_bodies

/-- Lines 179-181 of `nbody.cpp`: `ComputeForces`, then `MoveBodies`. -/
def simulationStep (gTerm deltaT : F32) (bodies : List (Particle F32)) :
    Option (List (Particle F32)) :=
  (ComputeForces bodies gTerm deltaT).map fun moved => MoveBodies moved deltaT

/-- Lines 176-187 of `nbody.cpp`: the iteration loop of `main`, for `maxIteration`
iterations (persistence left out). -/
def simulate (gTerm deltaT : F32) : Nat → List (Particle F32) → Option (List (Particle F32))
  | 0, bodies => some bodies
  | maxIteration + 1, bodies =>
    (simulationStep gTerm deltaT bodies).bind (simulate gTerm deltaT maxIteration)

/-- A body of mass `2^-48` at rest at `(0, 0)`. -/
def closeLeft : Particle F32 := ⟨⟨zero, zero⟩, ⟨zero, zero⟩, F32.pow2 (-48)⟩

/-- A body of mass `2^-48` at rest at `(2^-50, 0)`. -/
def closeRight : Particle F32 := ⟨⟨F32.pow2 (-50), zero⟩, ⟨zero, zero⟩, F32.pow2 (-48)⟩

end Binary32


/-! ## Auxiliary closed forms and loop lemmas -/

section Lemmas

variable {α : Type} [LinearOrderedField α]

/-- Auxiliary: the vector that `accumulate` adds to `force` when the assertion
holds, `direction * (1 / distance³) * p2.Mass`. -/
def pairContribution (sqrt : α → α) (p1 p2 : Particle α) : Vector2 α :=
  ((p2.Position.sub p1.Position).mul
    (1 / (clampedDistance sqrt p1 p2 * clampedDistance sqrt p1 p2 *
      clampedDistance sqrt p1 p2))).mul p2.Mass

/-- Auxiliary: the contribution of index `k` of the collection, total in `k`. -/
def contributionAt (sqrt : α → α) (p_bodies : List (Particle α)) (p1 : Particle α)
    (k : Nat) : Vector2 α :=
  if h : k < p_bodies.length then pairContribution sqrt p1 p_bodies[k] else Vector2.splat 0

/-- Auxiliary: the inner loop without the assertion, over the first `n` indices. -/
def netForceUpTo (sqrt : α → α) (p_bodies : List (Particle α)) (j : Nat)
    (p1 : Particle α) (n : Nat) : Vector2 α :=
  (List.range n).foldl
    (fun force k => if k = j then force else force.add (contributionAt sqrt p_bodies p1 k))
    (Vector2.splat 0)

/-- Auxiliary: the value of `force` after the inner loop for body `j`. -/
def netForce (sqrt : α → α) (p_bodies : List (Particle α)) (j : Nat)
    (p1 : Particle α) : Vector2 α :=
  netForceUpTo sqrt p_bodies j p1 p_bodies.length

/-- Auxiliary: the body `p1` after its velocity has been integrated with `force`. -/
def integrated (p_gravitationalTerm p_deltaT : α) (p1 : Particle α)
    (force : Vector2 α) : Particle α :=
  { p1 with
    Velocity := p1.Velocity.addAssign ((force.mul p_gravitationalTerm).mul p_deltaT) }

/-- Section 8 of the specification, two-body attraction sanity check: two bodies of
mass 1, at rest, at `(0, 0)` and `(10, 0)`. -/
def attractionBodies (α : Type) [LinearOrderedField α] : List (Particle α) :=
  [⟨⟨0, 0⟩, ⟨0, 0⟩, 1⟩, ⟨⟨10, 0⟩, ⟨0, 0⟩, 1⟩]

/-- Section 8 of the specification, clamp correctness: bodies of mass 3 and 4 at
distance 1, at rest. -/
def clampBodies (α : Type) [LinearOrderedField α] : List (Particle α) :=
  [⟨⟨0, 0⟩, ⟨0, 0⟩, 3⟩, ⟨⟨1, 0⟩, ⟨0, 0⟩, 4⟩]

/-- The first body of `clampBodies`: mass 3 at `(0, 0)`. -/
def clampLight (α : Type) [LinearOrderedField α] : Particle α := ⟨⟨0, 0⟩, ⟨0, 0⟩, 3⟩

/-- The second body of `clampBodies`: mass 4 at `(1, 0)`. -/
def clampHeavy (α : Type) [LinearOrderedField α] : Particle α := ⟨⟨1, 0⟩, ⟨0, 0⟩, 4⟩

/-- The first body of `attractionBodies`: mass 1 at rest at `(0, 0)`. -/
def restAtOrigin (α : Type) [LinearOrderedField α] : Particle α := ⟨⟨0, 0⟩, ⟨0, 0⟩, 1⟩

/-- The second body of `attractionBodies`: mass 1 at rest at `(10, 0)`. -/
def restAtTen (α : Type) [LinearOrderedField α] : Particle α := ⟨⟨10, 0⟩, ⟨0, 0⟩, 1⟩

/-- Spec side: the body `p` with the offset `t` added to its position. -/
def translated (t : Vector2 α) (p : Particle α) : Particle α :=
  { p with Position := p.Position.add t }

/-- The attraction example after one step with `G = 1`, `dt = 10`. -/
def afterForwardStep (α : Type) [LinearOrderedField α] : List (Particle α) :=
  [⟨⟨1, 0⟩, ⟨1 / 10, 0⟩, 1⟩, ⟨⟨9, 0⟩, ⟨-(1 / 10), 0⟩, 1⟩]

/-- The attraction example after one step with `G = 1`, `dt = 10` and then one step
with `G = 1`, `dt = -10`. -/
def afterBackwardStep (α : Type) [LinearOrderedField α] : List (Particle α) :=
  [⟨⟨25 / 16, 0⟩, ⟨-(9 / 160), 0⟩, 1⟩, ⟨⟨135 / 16, 0⟩, ⟨9 / 160, 0⟩, 1⟩]

/-- A single moving body: position `(1, 2)`, velocity `(3, -1)`, mass `5`. -/
def loneBody (α : Type) [LinearOrderedField α] : List (Particle α) :=
  [⟨⟨1, 2⟩, ⟨3, -1⟩, 5⟩]

/-- Two moving bodies of mass 3 and 4: velocities `(1, 2)` and `(-1, 0)`. -/
def driftingBodies (α : Type) [LinearOrderedField α] : List (Particle α) :=
  [⟨⟨0, 0⟩, ⟨1, 2⟩, 3⟩, ⟨⟨1, 0⟩, ⟨-1, 0⟩, 4⟩]

/-- Auxiliary: the body `p` after line 94, `Position += Velocity * p_deltaT`. -/
def advanced (p_deltaT : α) (p : Particle α) : Particle α :=
  { p with Position := p.Position.addAssign (p.Velocity.mul p_deltaT) }

/-- Spec side (section 4.1): the clamped distance
`r = max(0.5·(mass[i] + mass[k]), |d|)`, with `|d|` the Euclidean length of
`d = position[k] − position[i]`. -/
def specClampedDistance (sqrt : α → α) (bi bk : Particle α) : α :=
  max (0.5 * (bi.Mass + bk.Mass))
    (sqrt ((bk.Position.X - bi.Position.X) ^ 2 + (bk.Position.Y - bi.Position.Y) ^ 2))

/-- Spec side (section 4.1): `S_i`, the sum over all `k ≠ i` of
`(position[k] − position[i]) / r³ · mass[k]`, component by component. -/
def specForceSum (sqrt : α → α) (bs : List (Particle α)) (i : Fin bs.length) : Vector2 α :=
  ⟨∑ k ∈ Finset.univ.filter (fun k : Fin bs.length => k ≠ i),
      (bs[k].Position.X - bs[i].Position.X) / specClampedDistance sqrt bs[i] bs[k] ^ 3
        * bs[k].Mass,
   ∑ k ∈ Finset.univ.filter (fun k : Fin bs.length => k ≠ i),
      (bs[k].Position.Y - bs[i].Position.Y) / specClampedDistance sqrt bs[i] bs[k] ^ 3
        * bs[k].Mass⟩

theorem clampedDistance_ge (sqrt : α → α) (p1 p2 : Particle α) :
    0.5 * (p2.Mass + p1.Mass) ≤ clampedDistance sqrt p1 p2 :=
  le_max_left _ _

theorem clampedDistance_pos (sqrt : α → α) (p1 p2 : Particle α)
    (h : 0 < p2.Mass + p1.Mass) : 0 < clampedDistance sqrt p1 p2 := by
  have h1 : (0 : α) < 0.5 * (p2.Mass + p1.Mass) := by
    have : (0.5 : α) = 1 / 2 := by norm_num
    rw [this]; positivity
  exact lt_of_lt_of_le h1 (clampedDistance_ge sqrt p1 p2)

theorem clampedDistance_cube_pos (sqrt : α → α) (p1 p2 : Particle α)
    (h : 0 < p2.Mass + p1.Mass) :
    0 < clampedDistance sqrt p1 p2 * clampedDistance sqrt p1 p2 *
      clampedDistance sqrt p1 p2 := by
  have := clampedDistance_pos sqrt p1 p2 h
  positivity

theorem accumulate_eq (sqrt : α → α) (p1 p2 : Particle α) (force : Vector2 α)
    (h : 0 < p2.Mass + p1.Mass) :
    accumulate sqrt p1 p2 force = some (force.add (pairContribution sqrt p1 p2)) := by
  have hne2 : clampedDistance sqrt p1 p2 * clampedDistance sqrt p1 p2 *
      clampedDistance sqrt p1 p2 ≠ 0 := (clampedDistance_cube_pos sqrt p1 p2 h).ne.symm
  simp [accumulate, Vector2.div, hne2, pairContribution, Vector2.addAssign]

theorem innerLoop_upTo (sqrt : α → α) (p_bodies : List (Particle α)) (j : Nat)
    (p1 : Particle α)
    (hm : ∀ k (h : k < p_bodies.length), k ≠ j → 0 < p_bodies[k].Mass + p1.Mass)
    (n : Nat) (hn : n ≤ p_bodies.length) :
    (List.range n).foldlM
      (fun force k =>
        if k = j then some force
        else if h : k < p_bodies.length then accumulate sqrt p1 p_bodies[k] force
        else some force)
      (Vector2.splat 0) = some (netForceUpTo sqrt p_bodies j p1 n) := by
  induction n with
  | zero => simp [netForceUpTo]
  | succ n ih =>
    have hlt : n < p_bodies.length := hn
    rw [List.range_succ, List.foldlM_append, ih (Nat.le_of_lt hlt)]
    simp only [netForceUpTo, List.range_succ, List.foldl_append, List.foldl_cons,
      List.foldl_nil, List.foldlM_cons, List.foldlM_nil, Option.some_bind, Option.bind_eq_bind]
    by_cases hj : n = j
    · simp [hj]
    · simp [hj, hlt, contributionAt, accumulate_eq sqrt p1 p_bodies[n] _ (hm n hlt hj)]

theorem innerLoop_eq (sqrt : α → α) (p_bodies : List (Particle α)) (j : Nat)
    (p1 : Particle α)
    (hm : ∀ k (h : k < p_bodies.length), k ≠ j → 0 < p_bodies[k].Mass + p1.Mass) :
    innerLoop sqrt p_bodies j p1 = some (netForce sqrt p_bodies j p1) :=
  innerLoop_upTo sqrt p_bodies j p1 hm p_bodies.length le_rfl

theorem contributionAt_congr (sqrt : α → α) (b bs : List (Particle α)) (p1 : Particle α)
    (hl : b.length = bs.length)
    (hag : ∀ k (h : k < b.length) (h2 : k < bs.length),
      b[k].Position = bs[k].Position ∧ b[k].Mass = bs[k].Mass) :
    contributionAt sqrt b p1 = contributionAt sqrt bs p1 := by
  funext k
  unfold contributionAt
  by_cases h : k < b.length
  · have h2 : k < bs.length := hl ▸ h
    obtain ⟨e1, e2⟩ := hag k h h2
    simp only [h, h2, dif_pos, pairContribution, clampedDistance, e1, e2]
  · have h2 : ¬ k < bs.length := hl ▸ h
    simp only [h, h2, dif_neg, not_false_eq_true]

theorem netForce_congr (sqrt : α → α) (b bs : List (Particle α)) (j : Nat) (p1 : Particle α)
    (hl : b.length = bs.length)
    (hag : ∀ k (h : k < b.length) (h2 : k < bs.length),
      b[k].Position = bs[k].Position ∧ b[k].Mass = bs[k].Mass) :
    netForce sqrt b j p1 = netForce sqrt bs j p1 := by
  unfold netForce netForceUpTo
  rw [contributionAt_congr sqrt b bs p1 hl hag, hl]

theorem integrated_Position (G dt : α) (p1 : Particle α) (force : Vector2 α) :
    (integrated G dt p1 force).Position = p1.Position := rfl

theorem integrated_Mass (G dt : α) (p1 : Particle α) (force : Vector2 α) :
    (integrated G dt p1 force).Mass = p1.Mass := rfl

theorem ComputeForces_upTo (sqrt : α → α) (bs : List (Particle α)) (G dt : α)
    (hm : ∀ j k (hj : j < bs.length) (hk : k < bs.length), k ≠ j →
      0 < bs[k].Mass + bs[j].Mass)
    (m : Nat) (hmle : m ≤ bs.length) :
    ∃ b, (List.range m).foldlM (fun bodies j => forceStep sqrt G dt bodies j) bs = some b ∧
      b.length = bs.length ∧
      ∀ i (h : i < bs.length) (h2 : i < b.length),
        b[i] = if i < m then integrated G dt bs[i] (netForce sqrt bs i bs[i]) else bs[i] := by
  induction m with
  | zero => exact ⟨bs, by simp, rfl, fun i h h2 => by simp⟩
  | succ m ih =>
    have hlt : m < bs.length := hmle
    obtain ⟨b, hb, hlen, hget⟩ := ih (Nat.le_of_lt hlt)
    have hltb : m < b.length := hlen ▸ hlt
    have hbm : b[m] = bs[m] := by simpa using hget m hlt hltb
    have hag : ∀ k (h : k < b.length) (h2 : k < bs.length),
        b[k].Position = bs[k].Position ∧ b[k].Mass = bs[k].Mass := by
      intro k h h2
      rw [hget k h2 h]
      split <;> simp [integrated_Position, integrated_Mass]
    have hinner : innerLoop sqrt b m b[m] = some (netForce sqrt bs m bs[m]) := by
      rw [innerLoop_eq sqrt b m b[m], netForce_congr sqrt b bs m b[m] hlen hag, hbm]
      intro k h hk
      rw [(hag k h (hlen ▸ h)).2, hbm]
      exact hm m k hlt (hlen ▸ h) hk
    refine ⟨b.set m (integrated G dt bs[m] (netForce sqrt bs m bs[m])), ?_, by simp [hlen], ?_⟩
    · rw [List.range_succ, List.foldlM_append, hb]
      rw [hbm] at hinner
      simp [forceStep, hltb, hinner, integrated, hbm]
    · intro i h h2
      rw [List.getElem_set]
      by_cases him : m = i
      · subst him; simp
      · simp only [him, if_false]
        have h3 : i < b.length := hlen ▸ h
        rw [hget i h h3]
        by_cases hi : i < m
        · simp [hi, Nat.lt_succ_of_lt hi]
        · have : ¬ i < m + 1 := by omega
          simp [hi, this]

/-- Closed form of `ComputeForces`: it succeeds as soon as every pair of distinct
bodies has a positive mass sum, and body `i` of the result is body `i` of the input
with its velocity integrated with the net force on it. -/
theorem ComputeForces_closed (sqrt : α → α) (bs : List (Particle α)) (G dt : α)
    (hm : ∀ j k (hj : j < bs.length) (hk : k < bs.length), k ≠ j →
      0 < bs[k].Mass + bs[j].Mass) :
    ∃ b, ComputeForces sqrt bs G dt = some b ∧ b.length = bs.length ∧
      ∀ i (h : i < bs.length) (h2 : i < b.length),
        b[i] = integrated G dt bs[i] (netForce sqrt bs i bs[i]) := by
  obtain ⟨b, hb, hlen, hget⟩ := ComputeForces_upTo sqrt bs G dt hm bs.length le_rfl
  exact ⟨b, hb, hlen, fun i h h2 => by simpa [h] using hget i h h2⟩

theorem mass_pair_pos (bs : List (Particle α)) (hm : ∀ p ∈ bs, 0 < p.Mass) :
    ∀ j k (hj : j < bs.length) (hk : k < bs.length), k ≠ j →
      0 < bs[k].Mass + bs[j].Mass := fun _ _ hj hk _ =>
  add_pos (hm _ (List.getElem_mem hk)) (hm _ (List.getElem_mem hj))

theorem netForceUpTo_X (sqrt : α → α) (bs : List (Particle α)) (j : Nat) (p1 : Particle α)
    (n : Nat) :
    (netForceUpTo sqrt bs j p1 n).X =
      ∑ k ∈ Finset.range n, if k = j then 0 else (contributionAt sqrt bs p1 k).X := by
  induction n with
  | zero => simp [netForceUpTo, Vector2.splat]
  | succ n ih =>
    rw [Finset.sum_range_succ, ← ih]
    simp only [netForceUpTo, List.range_succ, List.foldl_append, List.foldl_cons, List.foldl_nil]
    by_cases hj : n = j <;> simp [hj, Vector2.add]

theorem netForceUpTo_Y (sqrt : α → α) (bs : List (Particle α)) (j : Nat) (p1 : Particle α)
    (n : Nat) :
    (netForceUpTo sqrt bs j p1 n).Y =
      ∑ k ∈ Finset.range n, if k = j then 0 else (contributionAt sqrt bs p1 k).Y := by
  induction n with
  | zero => simp [netForceUpTo, Vector2.splat]
  | succ n ih =>
    rw [Finset.sum_range_succ, ← ih]
    simp only [netForceUpTo, List.range_succ, List.foldl_append, List.foldl_cons, List.foldl_nil]
    by_cases hj : n = j <;> simp [hj, Vector2.add]

theorem sum_range_skip (n : Nat) (i : Fin n) (f : Nat → α) (g : Fin n → α)
    (hfg : ∀ k : Fin n, f k.val = g k) :
    (∑ k ∈ Finset.range n, if k = i.val then 0 else f k) =
      ∑ k ∈ Finset.univ.filter (fun k : Fin n => k ≠ i), g k := by
  rw [Finset.sum_range (fun k => if k = i.val then 0 else f k), Finset.sum_filter]
  refine Finset.sum_congr rfl fun k _ => ?_
  by_cases h : k = i
  · simp [h]
  · have h2 : k.val ≠ i.val := fun e => h (Fin.ext e)
    simp [h, h2, hfg]

theorem MoveBodies_upTo (bs : List (Particle α)) (dt : α) (m : Nat) (hmle : m ≤ bs.length) :
    ∃ b, (List.range m).foldl (fun bodies j => moveStep dt bodies j) bs = b ∧
      b.length = bs.length ∧
      ∀ i (h : i < bs.length) (h2 : i < b.length),
        b[i] = if i < m then advanced dt bs[i] else bs[i] := by
  induction m with
  | zero => exact ⟨bs, by simp, rfl, fun i h h2 => by simp⟩
  | succ m ih =>
    have hlt : m < bs.length := hmle
    obtain ⟨b, hb, hlen, hget⟩ := ih (Nat.le_of_lt hlt)
    have hltb : m < b.length := hlen ▸ hlt
    have hbm : b[m] = bs[m] := by simpa using hget m hlt hltb
    have hstep : moveStep dt b m = b.set m (advanced dt bs[m]) := by
      simp [moveStep, hltb, advanced, hbm]
    refine ⟨b.set m (advanced dt bs[m]), ?_, by simp [hlen], fun i h h2 => ?_⟩
    · simp only [List.range_succ, List.foldl_append, List.foldl_cons, List.foldl_nil, hb, hstep]
    · rw [List.getElem_set]
      by_cases him : m = i
      · subst him; simp
      · simp only [him, if_false]
        rw [hget i h (hlen ▸ h)]
        by_cases hi : i < m
        · simp [hi, Nat.lt_succ_of_lt hi]
        · have : ¬ i < m + 1 := by omega
          simp [hi, this]

/-- Closed form of `MoveBodies`: every body is advanced on its own. -/
theorem MoveBodies_eq_map (bs : List (Particle α)) (dt : α) :
    MoveBodies bs dt = bs.map (advanced dt) := by
  obtain ⟨b, hb, hlen, hget⟩ := MoveBodies_upTo bs dt bs.length le_rfl
  unfold MoveBodies
  rw [hb]
  apply List.ext_getElem
  · simpa using hlen
  · intro i h1 h2
    have h : i < bs.length := by simpa using h2
    simpa [h] using hget i h h1

/-- Closed form of `MoveBodies` with the components written out. -/
theorem MoveBodies_eq_map_components (bs : List (Particle α)) (dt : α) :
    MoveBodies bs dt =
      bs.map (fun p => { p with Position := ⟨p.Position.X + p.Velocity.X * dt,
                                            p.Position.Y + p.Velocity.Y * dt⟩ }) := by
  rw [MoveBodies_eq_map]
  apply List.map_congr_left
  intro p _
  simp only [advanced, Vector2.addAssign, Vector2.add, Vector2.mul, mul_comm dt]

theorem map_set_same {γ β : Type} (f : γ → β) (b : List γ) (j : Nat)
    (h : j < b.length) (x : γ) (hx : f x = f b[j]) :
    (b.set j x).map f = b.map f := by
  apply List.ext_getElem
  · simp
  · intro i h1 h2
    simp only [List.getElem_map, List.getElem_set]
    split
    · next e => subst e; exact hx
    · rfl

theorem forceStep_frame (sqrt : α → α) (G dt : α) (b b2 : List (Particle α)) (j : Nat)
    (h : forceStep sqrt G dt b j = some b2) :
    b2.map Particle.Mass = b.map Particle.Mass ∧
      b2.map Particle.Position = b.map Particle.Position := by
  unfold forceStep at h
  split at h
  · next hj =>
    simp only [Option.map_eq_some'] at h
    obtain ⟨force, _, rfl⟩ := h
    exact ⟨map_set_same _ b j hj _ rfl, map_set_same _ b j hj _ rfl⟩
  · simp only [Option.some.injEq] at h
    subst h
    exact ⟨rfl, rfl⟩

theorem forceLoop_frame (sqrt : α → α) (G dt : α) (l : List Nat) (b b2 : List (Particle α))
    (h : l.foldlM (fun bodies j => forceStep sqrt G dt bodies j) b = some b2) :
    b2.map Particle.Mass = b.map Particle.Mass ∧
      b2.map Particle.Position = b.map Particle.Position := by
  induction l generalizing b with
  | nil =>
    simp only [List.foldlM_nil, Option.pure_def, Option.some.injEq] at h
    subst h
    exact ⟨rfl, rfl⟩
  | cons j l ih =>
    simp only [List.foldlM_cons, Option.bind_eq_bind, Option.bind_eq_some] at h
    obtain ⟨b1, h1, h2⟩ := h
    obtain ⟨e1, e2⟩ := forceStep_frame sqrt G dt b b1 j h1
    obtain ⟨e3, e4⟩ := ih b1 h2
    exact ⟨e3.trans e1, e4.trans e2⟩

theorem ComputeForces_frame (sqrt : α → α) (G dt : α) (bs b2 : List (Particle α))
    (h : ComputeForces sqrt bs G dt = some b2) :
    b2.map Particle.Mass = bs.map Particle.Mass ∧
      b2.map Particle.Position = bs.map Particle.Position :=
  forceLoop_frame sqrt G dt _ bs b2 h

theorem div_of_ne (v : Vector2 α) (s : α) (h : s ≠ 0) : v.div s = some (v.mul (1 / s)) := by
  simp only [Vector2.div, h, if_false]

theorem clampedDistance_comm (sqrt : α → α) (p1 p2 : Particle α) :
    clampedDistance sqrt p1 p2 = clampedDistance sqrt p2 p1 := by
  simp only [clampedDistance, Vector2.Length, Vector2.sub]
  rw [add_comm p2.Mass p1.Mass]
  congr 3
  ring

theorem range_two : List.range 2 = [0, 1] := by decide

theorem range_one : List.range 1 = [0] := by decide

theorem netForce_two_fst (sqrt : α → α) (p q : Particle α) :
    netForce sqrt [p, q] 0 p = (Vector2.splat 0).add (pairContribution sqrt p q) := by
  simp [netForce, netForceUpTo, range_two, contributionAt]

theorem netForce_two_snd (sqrt : α → α) (p q : Particle α) :
    netForce sqrt [p, q] 1 q = (Vector2.splat 0).add (pairContribution sqrt q p) := by
  simp [netForce, netForceUpTo, range_two, contributionAt]

/-- Closed form of `ComputeForces` on a two-body collection. -/
theorem ComputeForces_two (sqrt : α → α) (p q : Particle α) (G dt : α)
    (hm : 0 < p.Mass + q.Mass) :
    ComputeForces sqrt [p, q] G dt =
      some [integrated G dt p ((Vector2.splat 0).add (pairContribution sqrt p q)),
            integrated G dt q ((Vector2.splat 0).add (pairContribution sqrt q p))] := by
  have hpair : ∀ j k (hj : j < [p, q].length) (hk : k < [p, q].length), k ≠ j →
      0 < [p, q][k].Mass + [p, q][j].Mass := by
    intro j k hj hk hkj
    have hj2 : j < 2 := hj
    have hk2 : k < 2 := hk
    interval_cases j <;> interval_cases k <;> simp_all [add_comm]
  obtain ⟨b, hb, hlen, hget⟩ := ComputeForces_closed sqrt [p, q] G dt hpair
  rw [hb]
  congr 1
  apply List.ext_getElem
  · simpa using hlen
  · intro i h1 h2
    have h3 : i < 2 := h2
    have := hget i h3 h1
    interval_cases i
    · simpa [netForce_two_fst] using this
    · simpa [netForce_two_snd] using this

theorem integrated_zero_force (G dt : α) (p : Particle α) :
    integrated G dt p (Vector2.splat 0) = p := by
  cases p with
  | mk pos vel m =>
    cases vel
    simp [integrated, Vector2.addAssign, Vector2.add, Vector2.mul, Vector2.splat]

theorem integrated_zero_G (dt : α) (p : Particle α) (force : Vector2 α) :
    integrated 0 dt p force = p := by
  cases p with
  | mk pos vel m =>
    cases vel
    simp [integrated, Vector2.addAssign, Vector2.add, Vector2.mul]

/-- With at most one body the force pass is the identity, whatever the mass. -/
theorem ComputeForces_small (sqrt : α → α) (bs : List (Particle α)) (G dt : α)
    (hn : bs.length ≤ 1) : ComputeForces sqrt bs G dt = some bs := by
  have hpair : ∀ j k (hj : j < bs.length) (hk : k < bs.length), k ≠ j →
      0 < bs[k].Mass + bs[j].Mass := by
    intro j k hj hk hkj
    omega
  obtain ⟨b, hb, hlen, hget⟩ := ComputeForces_closed sqrt bs G dt hpair
  rw [hb]
  congr 1
  apply List.ext_getElem hlen
  intro i h1 h2
  rw [hget i h2 h1]
  have hi : i = 0 := by omega
  subst hi
  have hF : netForce sqrt bs 0 bs[0] = Vector2.splat 0 := by
    have hl : bs.length = 1 := by omega
    simp [netForce, netForceUpTo, hl, range_one]
  rw [hF, integrated_zero_force]

/-- With `G = 0` the force pass succeeds on well-formed input and is the identity. -/
theorem ComputeForces_zero_G (sqrt : α → α) (bs : List (Particle α)) (dt : α)
    (hm : ∀ p ∈ bs, 0 < p.Mass) : ComputeForces sqrt bs 0 dt = some bs := by
  obtain ⟨b, hb, hlen, hget⟩ := ComputeForces_closed sqrt bs 0 dt (mass_pair_pos bs hm)
  rw [hb]
  congr 1
  apply List.ext_getElem hlen
  intro i h1 h2
  rw [hget i h2 h1, integrated_zero_G]

theorem pairContribution_congr (sqrt : α → α) (p1 q1 p2 q2 : Particle α)
    (h1 : p1.Position = q1.Position) (h2 : p1.Mass = q1.Mass)
    (h3 : p2.Position = q2.Position) (h4 : p2.Mass = q2.Mass) :
    pairContribution sqrt p1 p2 = pairContribution sqrt q1 q2 := by
  simp only [pairContribution, clampedDistance, h1, h2, h3, h4]

theorem netForce_congr_body (sqrt : α → α) (bs : List (Particle α)) (j : Nat)
    (p1 q1 : Particle α) (h1 : p1.Position = q1.Position) (h2 : p1.Mass = q1.Mass) :
    netForce sqrt bs j p1 = netForce sqrt bs j q1 := by
  have hc : contributionAt sqrt bs p1 = contributionAt sqrt bs q1 := by
    funext k
    unfold contributionAt
    split
    · exact pairContribution_congr sqrt _ _ _ _ h1 h2 rfl rfl
    · rfl
  unfold netForce netForceUpTo
  rw [hc]

/-- Closed form of `ComputeForces` as a list built index by index. -/
theorem ComputeForces_ofFn (sqrt : α → α) (bs : List (Particle α)) (G dt : α)
    (hm : ∀ j k (hj : j < bs.length) (hk : k < bs.length), k ≠ j →
      0 < bs[k].Mass + bs[j].Mass) :
    ComputeForces sqrt bs G dt =
      some (List.ofFn fun i : Fin bs.length =>
        integrated G dt bs[i] (netForce sqrt bs i bs[i])) := by
  obtain ⟨b, hb, hlen, hget⟩ := ComputeForces_closed sqrt bs G dt hm
  rw [hb]
  congr 1
  apply List.ext_getElem
  · simp [hlen]
  · intro i h1 h2
    have h : i < bs.length := hlen ▸ h1
    rw [hget i h h1, List.getElem_ofFn]
    rfl

theorem mass_pos_of_map_eq (b bs : List (Particle α))
    (h : b.map Particle.Mass = bs.map Particle.Mass) (hm : ∀ p ∈ bs, 0 < p.Mass) :
    ∀ p ∈ b, 0 < p.Mass := by
  intro p hp
  have hmem : p.Mass ∈ b.map Particle.Mass := List.mem_map_of_mem _ hp
  rw [h] at hmem
  obtain ⟨q, hq, hqm⟩ := List.mem_map.mp hmem
  rw [← hqm]
  exact hm q hq

theorem advanced_neg (dt : α) (p : Particle α) : advanced (-dt) (advanced dt p) = p := by
  rcases p with ⟨⟨x, y⟩, vel, m⟩
  simp only [advanced, Vector2.addAssign, Vector2.add, Vector2.mul, Particle.mk.injEq,
    Vector2.mk.injEq, and_true, true_and]
  constructor <;> ring

/-- Moving with `dt` and then with `-dt` restores the collection. -/
theorem MoveBodies_neg (bs : List (Particle α)) (dt : α) :
    MoveBodies (MoveBodies bs dt) (-dt) = bs := by
  rw [MoveBodies_eq_map, MoveBodies_eq_map, List.map_map]
  exact List.map_id'' (fun p => advanced_neg dt p) bs

theorem integrated_neg (G dt : α) (p q : Particle α) (F : Vector2 α)
    (hq : q = integrated G dt p F) : integrated G (-dt) q F = p := by
  subst hq
  rcases p with ⟨pos, ⟨vx, vy⟩, m⟩
  simp only [integrated, Vector2.addAssign, Vector2.add, Vector2.mul, Particle.mk.injEq,
    Vector2.mk.injEq, and_true, true_and]
  constructor <;> ring

theorem pairContribution_translated (sqrt : α → α) (t : Vector2 α) (p1 p2 : Particle α) :
    pairContribution sqrt (translated t p1) (translated t p2) = pairContribution sqrt p1 p2 := by
  have hsub : (p2.Position.add t).sub (p1.Position.add t) = p2.Position.sub p1.Position := by
    simp [Vector2.sub, Vector2.add]
  simp only [pairContribution, clampedDistance, translated, hsub]

theorem netForce_translated (sqrt : α → α) (t : Vector2 α) (bs : List (Particle α)) (j : Nat)
    (p1 : Particle α) :
    netForce sqrt (bs.map (translated t)) j (translated t p1) = netForce sqrt bs j p1 := by
  have hc : contributionAt sqrt (bs.map (translated t)) (translated t p1) =
      contributionAt sqrt bs p1 := by
    funext k
    unfold contributionAt
    by_cases h : k < bs.length
    · simp only [List.length_map, h, dif_pos, List.getElem_map, pairContribution_translated]
    · simp only [List.length_map, h, dif_neg, not_false_eq_true]
  unfold netForce netForceUpTo
  rw [hc, List.length_map]

theorem MoveBodies_Mass (bs : List (Particle α)) (dt : α) :
    (MoveBodies bs dt).map Particle.Mass = bs.map Particle.Mass := by
  rw [MoveBodies_eq_map, List.map_map]
  exact List.map_congr_left fun p _ => rfl

/-- One simulation step succeeds on well-formed input and keeps the masses. -/
theorem simulationStep_ok (sqrt : α → α) (bs : List (Particle α)) (G dt : α)
    (hm : ∀ p ∈ bs, 0 < p.Mass) :
    ∃ b, simulationStep sqrt G dt bs = some b ∧ b.map Particle.Mass = bs.map Particle.Mass := by
  obtain ⟨b1, hb1, _⟩ := ComputeForces_closed sqrt bs G dt (mass_pair_pos bs hm)
  refine ⟨MoveBodies b1 dt, by simp [simulationStep, hb1], ?_⟩
  rw [MoveBodies_Mass]
  exact (ComputeForces_frame sqrt G dt bs b1 hb1).1

theorem Vector2_eq_of_components {γ : Type} (a b : Vector2 γ) (hx : a.X = b.X)
    (hy : a.Y = b.Y) : a = b := by
  cases a
  cases b
  simp only [Vector2.mk.injEq]
  exact ⟨hx, hy⟩

theorem netForce_X_fin (sqrt : α → α) (cs : List (Particle α)) (p1 : Particle α) (n : Nat)
    (hn : cs.length = n) (j : Fin n) :
    (netForce sqrt cs j p1).X =
      ∑ k : Fin n, if k = j then 0 else (contributionAt sqrt cs p1 k).X := by
  subst hn
  unfold netForce
  rw [netForceUpTo_X, Finset.sum_range]
  refine Finset.sum_congr rfl fun k _ => ?_
  simp only [Fin.ext_iff]

theorem netForce_Y_fin (sqrt : α → α) (cs : List (Particle α)) (p1 : Particle α) (n : Nat)
    (hn : cs.length = n) (j : Fin n) :
    (netForce sqrt cs j p1).Y =
      ∑ k : Fin n, if k = j then 0 else (contributionAt sqrt cs p1 k).Y := by
  subst hn
  unfold netForce
  rw [netForceUpTo_Y, Finset.sum_range]
  refine Finset.sum_congr rfl fun k _ => ?_
  simp only [Fin.ext_iff]

theorem sum_perm_skip {n : Nat} (σ : Equiv.Perm (Fin n)) (i : Fin n) (f g : Fin n → α)
    (hfg : ∀ k, f k = g (σ k)) :
    (∑ k : Fin n, if k = i then 0 else f k) = ∑ l : Fin n, if l = σ i then 0 else g l := by
  rw [← Equiv.sum_comp σ (fun l => if l = σ i then 0 else g l)]
  refine Finset.sum_congr rfl fun k _ => ?_
  simp only [hfg, σ.injective.eq_iff]

/-- The net force on a body does not depend on where the bodies sit in the list. -/
theorem netForce_perm (sqrt : α → α) (bs cs : List (Particle α))
    (σ : Equiv.Perm (Fin bs.length)) (hlen : cs.length = bs.length)
    (hperm : ∀ i (h : i < cs.length) (h2 : i < bs.length), cs[i] = bs[σ ⟨i, h2⟩])
    (i : Nat) (h : i < cs.length) (h2 : i < bs.length) :
    netForce sqrt cs i cs[i] = netForce sqrt bs (σ ⟨i, h2⟩) bs[σ ⟨i, h2⟩] := by
  have hc : ∀ k : Fin bs.length,
      contributionAt sqrt cs cs[i] k = contributionAt sqrt bs bs[σ ⟨i, h2⟩] (σ k) := by
    intro k
    have hk : k.val < cs.length := by rw [hlen]; exact k.isLt
    simp only [contributionAt, hk, (σ k).isLt, dif_pos, hperm i h h2, hperm k.val hk k.isLt]
    rfl
  apply Vector2_eq_of_components
  · rw [netForce_X_fin sqrt cs cs[i] bs.length hlen ⟨i, h2⟩,
      netForce_X_fin sqrt bs bs[σ ⟨i, h2⟩] bs.length rfl (σ ⟨i, h2⟩)]
    exact sum_perm_skip σ ⟨i, h2⟩ _ _ (fun k => by rw [hc k])
  · rw [netForce_Y_fin sqrt cs cs[i] bs.length hlen ⟨i, h2⟩,
      netForce_Y_fin sqrt bs bs[σ ⟨i, h2⟩] bs.length rfl (σ ⟨i, h2⟩)]
    exact sum_perm_skip σ ⟨i, h2⟩ _ _ (fun k => by rw [hc k])

theorem double_sum_antisymm {n : Nat} (h : Fin n → Fin n → α)
    (hanti : ∀ i k, h i k = -h k i) : ∑ i : Fin n, ∑ k : Fin n, h i k = 0 := by
  have e : ∑ i : Fin n, ∑ k : Fin n, h i k = -∑ i : Fin n, ∑ k : Fin n, h i k := by
    calc ∑ i : Fin n, ∑ k : Fin n, h i k
        = ∑ k : Fin n, ∑ i : Fin n, h i k := Finset.sum_comm
      _ = ∑ k : Fin n, ∑ i : Fin n, -h k i := by
          refine Finset.sum_congr rfl fun k _ => Finset.sum_congr rfl fun i _ => hanti i k
      _ = -∑ k : Fin n, ∑ i : Fin n, h k i := by
          simp only [Finset.sum_neg_distrib]
  linarith

theorem pairContribution_antisymm_X (sqrt : α → α) (p1 p2 : Particle α) :
    p1.Mass * (pairContribution sqrt p1 p2).X = -(p2.Mass * (pairContribution sqrt p2 p1).X) := by
  simp only [pairContribution, Vector2.mul, Vector2.sub, clampedDistance_comm sqrt p2 p1]
  ring

theorem pairContribution_antisymm_Y (sqrt : α → α) (p1 p2 : Particle α) :
    p1.Mass * (pairContribution sqrt p1 p2).Y = -(p2.Mass * (pairContribution sqrt p2 p1).Y) := by
  simp only [pairContribution, Vector2.mul, Vector2.sub, clampedDistance_comm sqrt p2 p1]
  ring

/-- The mass-weighted net forces cancel, component `X`. -/
theorem weighted_netForce_X (sqrt : α → α) (bs : List (Particle α)) :
    ∑ i : Fin bs.length, bs[i].Mass * (netForce sqrt bs i bs[i]).X = 0 := by
  have hrw : ∀ i : Fin bs.length, bs[i].Mass * (netForce sqrt bs i bs[i]).X =
      ∑ k : Fin bs.length,
        if k = i then 0 else bs[i].Mass * (pairContribution sqrt bs[i] bs[k]).X := by
    intro i
    rw [netForce_X_fin sqrt bs bs[i] bs.length rfl i, Finset.mul_sum]
    refine Finset.sum_congr rfl fun k _ => ?_
    by_cases hk : k = i
    · simp [hk]
    · simp only [hk, if_false, contributionAt, k.isLt, dif_pos]
      rfl
  rw [Finset.sum_congr rfl fun i _ => hrw i]
  apply double_sum_antisymm
  intro i k
  by_cases hk : k = i
  · simp [hk]
  · have hk2 : ¬ i = k := fun e => hk e.symm
    simp only [hk, hk2, if_false]
    exact pairContribution_antisymm_X sqrt bs[i] bs[k]

/-- The mass-weighted net forces cancel, component `Y`. -/
theorem weighted_netForce_Y (sqrt : α → α) (bs : List (Particle α)) :
    ∑ i : Fin bs.length, bs[i].Mass * (netForce sqrt bs i bs[i]).Y = 0 := by
  have hrw : ∀ i : Fin bs.length, bs[i].Mass * (netForce sqrt bs i bs[i]).Y =
      ∑ k : Fin bs.length,
        if k = i then 0 else bs[i].Mass * (pairContribution sqrt bs[i] bs[k]).Y := by
    intro i
    rw [netForce_Y_fin sqrt bs bs[i] bs.length rfl i, Finset.mul_sum]
    refine Finset.sum_congr rfl fun k _ => ?_
    by_cases hk : k = i
    · simp [hk]
    · simp only [hk, if_false, contributionAt, k.isLt, dif_pos]
      rfl
  rw [Finset.sum_congr rfl fun i _ => hrw i]
  apply double_sum_antisymm
  intro i k
  by_cases hk : k = i
  · simp [hk]
  · have hk2 : ¬ i = k := fun e => hk e.symm
    simp only [hk, hk2, if_false]
    exact pairContribution_antisymm_Y sqrt bs[i] bs[k]

end Lemmas

section RealLemmas

theorem clampedDistance_real (p1 p2 : Particle ℝ) :
    clampedDistance Real.sqrt p1 p2 = specClampedDistance Real.sqrt p1 p2 := by
  simp only [clampedDistance, specClampedDistance, Vector2.Length, Vector2.sub,
    abs_of_nonneg (Real.sqrt_nonneg _), add_comm p2.Mass p1.Mass, sq]

theorem pairContribution_real_X (p1 p2 : Particle ℝ) :
    (pairContribution Real.sqrt p1 p2).X =
      (p2.Position.X - p1.Position.X) / specClampedDistance Real.sqrt p1 p2 ^ 3 * p2.Mass := by
  simp only [pairContribution, Vector2.mul, Vector2.sub, clampedDistance_real]
  ring

theorem pairContribution_real_Y (p1 p2 : Particle ℝ) :
    (pairContribution Real.sqrt p1 p2).Y =
      (p2.Position.Y - p1.Position.Y) / specClampedDistance Real.sqrt p1 p2 ^ 3 * p2.Mass := by
  simp only [pairContribution, Vector2.mul, Vector2.sub, clampedDistance_real]
  ring

theorem netForce_real (bs : List (Particle ℝ)) (i : Nat) (h : i < bs.length) :
    netForce Real.sqrt bs i bs[i] = specForceSum Real.sqrt bs ⟨i, h⟩ := by
  have hx := netForceUpTo_X Real.sqrt bs i bs[i] bs.length
  have hy := netForceUpTo_Y Real.sqrt bs i bs[i] bs.length
  rw [sum_range_skip bs.length ⟨i, h⟩ _
    (fun k => (bs[k].Position.X - bs[i].Position.X) /
      specClampedDistance Real.sqrt bs[i] bs[k] ^ 3 * bs[k].Mass)
    (fun k => by simp [contributionAt, pairContribution_real_X])] at hx
  rw [sum_range_skip bs.length ⟨i, h⟩ _
    (fun k => (bs[k].Position.Y - bs[i].Position.Y) /
      specClampedDistance Real.sqrt bs[i] bs[k] ^ 3 * bs[k].Mass)
    (fun k => by simp [contributionAt, pairContribution_real_Y])] at hy
  unfold netForce
  cases hF : netForceUpTo Real.sqrt bs i bs[i] bs.length with
  | mk x y =>
    rw [hF] at hx hy
    simp only [specForceSum, Vector2.mk.injEq]
    exact ⟨hx, hy⟩

theorem sqrt_hundred : Real.sqrt ((10 - 0) * (10 - 0) + (0 - 0) * (0 - 0)) = 10 := by
  have h : ((10 : ℝ) - 0) * (10 - 0) + (0 - 0) * (0 - 0) = 10 * 10 := by norm_num
  rw [h]
  exact Real.sqrt_mul_self (by norm_num)

theorem sqrt_hundred_rev : Real.sqrt ((0 - 10) * (0 - 10) + (0 - 0) * (0 - 0)) = 10 := by
  have h : ((0 : ℝ) - 10) * (0 - 10) + (0 - 0) * (0 - 0) = 10 * 10 := by norm_num
  rw [h]
  exact Real.sqrt_mul_self (by norm_num)

/-- The force pass on the two-body attraction example of section 8. -/
theorem ComputeForces_attraction :
    ComputeForces Real.sqrt (attractionBodies ℝ) 1 0.01 =
      some [⟨⟨0, 0⟩, ⟨0.0001, 0⟩, 1⟩, ⟨⟨10, 0⟩, ⟨-0.0001, 0⟩, 1⟩] := by
  unfold attractionBodies
  rw [ComputeForces_two Real.sqrt _ _ _ _ (by norm_num)]
  simp only [integrated, pairContribution, clampedDistance, Vector2.Length, Vector2.sub,
    Vector2.add, Vector2.addAssign, Vector2.mul, Vector2.splat, sqrt_hundred, sqrt_hundred_rev]
  norm_num

theorem clamp_three_four (p q : Particle ℝ) (hp : p.Mass = 3) (hq : q.Mass = 4)
    (hd : Real.sqrt ((q.Position.X - p.Position.X) ^ 2 + (q.Position.Y - p.Position.Y) ^ 2) = 1) :
    clampedDistance Real.sqrt p q = 3.5 ∧ clampedDistance Real.sqrt q p = 3.5 := by
  have hd2 : Real.sqrt ((p.Position.X - q.Position.X) ^ 2 + (p.Position.Y - q.Position.Y) ^ 2)
      = 1 := by
    rw [← hd]; congr 1; ring
  rw [clampedDistance_real, clampedDistance_real]
  simp only [specClampedDistance, hp, hq, hd, hd2]
  constructor <;> norm_num

theorem Length_nonneg (v : Vector2 ℝ) : 0 ≤ v.Length Real.sqrt := Real.sqrt_nonneg _

theorem Length_mul_self (v : Vector2 ℝ) :
    v.Length Real.sqrt * v.Length Real.sqrt = v.X * v.X + v.Y * v.Y :=
  Real.mul_self_sqrt (add_nonneg (mul_self_nonneg _) (mul_self_nonneg _))

theorem Length_pos (v : Vector2 ℝ) (hv : v ≠ ⟨0, 0⟩) : 0 < v.Length Real.sqrt := by
  apply Real.sqrt_pos.mpr
  rcases v with ⟨x, y⟩
  have hxy : x ≠ 0 ∨ y ≠ 0 := by
    by_contra hcon
    push_neg at hcon
    exact hv (by rw [hcon.1, hcon.2])
  rcases hxy with hx | hy
  · have := mul_self_pos.mpr hx
    have := mul_self_nonneg y
    simp only
    linarith
  · have := mul_self_pos.mpr hy
    have := mul_self_nonneg x
    simp only
    linarith

/-- The length of a scaled vector, for a non-negative scale. -/
theorem Length_mul (v : Vector2 ℝ) (c : ℝ) (hc : 0 ≤ c) :
    (v.mul c).Length Real.sqrt = c * v.Length Real.sqrt := by
  simp only [Vector2.Length, Vector2.mul]
  have h : c * v.X * (c * v.X) + c * v.Y * (c * v.Y) = c ^ 2 * (v.X * v.X + v.Y * v.Y) := by
    ring
  rw [h, Real.sqrt_mul (sq_nonneg c), Real.sqrt_sq hc]

theorem clampedDistance_real_length (p1 p2 : Particle ℝ) :
    clampedDistance Real.sqrt p1 p2 =
      max (0.5 * (p2.Mass + p1.Mass)) ((p2.Position.sub p1.Position).Length Real.sqrt) := by
  simp only [clampedDistance, abs_of_nonneg (Length_nonneg _)]

theorem Length_le_clampedDistance (p1 p2 : Particle ℝ) :
    (p2.Position.sub p1.Position).Length Real.sqrt ≤ clampedDistance Real.sqrt p1 p2 := by
  rw [clampedDistance_real_length]
  exact le_max_right _ _

theorem sqrt_one_zero : Real.sqrt ((1 - 0) * (1 - 0) + (0 - 0) * (0 - 0)) = 1 := by
  norm_num

theorem clamp_example_distance :
    clampedDistance Real.sqrt (clampLight ℝ) (clampHeavy ℝ) = 3.5 :=
  (clamp_three_four (clampLight ℝ) (clampHeavy ℝ) rfl rfl
    (by simp [clampLight, clampHeavy])).1

theorem clamp_example_length :
    ((clampHeavy ℝ).Position.sub (clampLight ℝ).Position).Length Real.sqrt = 1 := by
  simp [clampLight, clampHeavy, Vector2.sub, Vector2.Length]

theorem sqrt_axis (a b : ℝ) :
    Real.sqrt ((a - b) * (a - b) + (0 - 0) * (0 - 0)) = |a - b| := by
  rw [show (a - b) * (a - b) + (0 - 0) * (0 - 0) = (a - b) * (a - b) by ring]
  exact Real.sqrt_mul_self_eq_abs _

/-- The attraction example, one step forward with `G = 1`, `dt = 10`. -/
theorem forward_step_attraction :
    simulationStep Real.sqrt 1 10 (attractionBodies ℝ) = some (afterForwardStep ℝ) := by
  unfold simulationStep attractionBodies afterForwardStep
  rw [ComputeForces_two Real.sqrt _ _ _ _ (by norm_num), Option.map_some', MoveBodies_eq_map]
  simp only [List.map_cons, List.map_nil, advanced, integrated, pairContribution, clampedDistance,
    Vector2.Length, Vector2.sub, Vector2.add, Vector2.addAssign, Vector2.mul, Vector2.splat,
    sqrt_axis]
  norm_num

/-- The attraction example, one step back with `G = 1`, `dt = -10`. -/
theorem backward_step_attraction :
    simulationStep Real.sqrt 1 (-10) (afterForwardStep ℝ) = some (afterBackwardStep ℝ) := by
  unfold simulationStep afterForwardStep afterBackwardStep
  rw [ComputeForces_two Real.sqrt _ _ _ _ (by norm_num), Option.map_some', MoveBodies_eq_map]
  simp only [List.map_cons, List.map_nil, advanced, integrated, pairContribution, clampedDistance,
    Vector2.Length, Vector2.sub, Vector2.add, Vector2.addAssign, Vector2.mul, Vector2.splat,
    sqrt_axis]
  norm_num

end RealLemmas

section Claims

/-- C1: over exact real arithmetic, for every collection whose masses are all
positive and every `G` and `dt`, `ComputeForces` succeeds, keeps the number of
bodies, and sets `velocity'[i] = velocity[i] + (G * S_i) * dt` for every index `i`,
where `S_i` is the sum over all `k ≠ i` of
`(position[k] - position[i]) / r_ik^3 * mass[k]` and
`r_ik = max(0.5 * (mass[i] + mass[k]), |position[k] - position[i]|)`. -/
theorem C1_ComputeForces_velocity_update (bs : List (Particle ℝ)) (G dt : ℝ)
    (hm : ∀ p ∈ bs, 0 < p.Mass) :
    ∃ bs', ComputeForces Real.sqrt bs G dt = some bs' ∧ bs'.length = bs.length ∧
      ∀ i (h : i < bs.length) (h2 : i < bs'.length),
        bs'[i].Velocity =
          ⟨bs[i].Velocity.X + (G * (specForceSum Real.sqrt bs ⟨i, h⟩).X) * dt,
           bs[i].Velocity.Y + (G * (specForceSum Real.sqrt bs ⟨i, h⟩).Y) * dt⟩ := by
  obtain ⟨b, hb, hlen, hget⟩ :=
    ComputeForces_closed Real.sqrt bs G dt (mass_pair_pos bs hm)
  refine ⟨b, hb, hlen, fun i h h2 => ?_⟩
  rw [hget i h h2, netForce_real bs i h]
  simp only [integrated, Vector2.addAssign, Vector2.add, Vector2.mul, Vector2.mk.injEq]
  constructor <;> ring


/-- C1 witness: the two-body attraction example of section 8 is well formed, so the
velocity formula of C1 holds on it with `G = 1`, `dt = 0.01`. -/
theorem C1_ComputeForces_velocity_update_witness :
    (∀ p ∈ attractionBodies ℝ, 0 < p.Mass) ∧
    ∃ bs', ComputeForces Real.sqrt (attractionBodies ℝ) 1 0.01 = some bs' ∧
      bs'.length = (attractionBodies ℝ).length ∧
      ∀ i (h : i < (attractionBodies ℝ).length) (h2 : i < bs'.length),
        bs'[i].Velocity =
          ⟨(attractionBodies ℝ)[i].Velocity.X +
              (1 * (specForceSum Real.sqrt (attractionBodies ℝ) ⟨i, h⟩).X) * 0.01,
           (attractionBodies ℝ)[i].Velocity.Y +
              (1 * (specForceSum Real.sqrt (attractionBodies ℝ) ⟨i, h⟩).Y) * 0.01⟩ :=
  ⟨by simp [attractionBodies],
   C1_ComputeForces_velocity_update (attractionBodies ℝ) 1 0.01 (by simp [attractionBodies])⟩

/-- C2: for every collection and every `dt`, `MoveBodies` keeps the number of bodies
and sets `position'[j] = position[j] + velocity[j] * dt` for every index `j`; the
result is the collection mapped body by body, so body `j` of the result depends on
body `j` of the input only. -/
theorem C2_MoveBodies_position_update {α : Type} [LinearOrderedField α]
    (bs : List (Particle α)) (dt : α) :
    MoveBodies bs dt =
        bs.map (fun p => { p with Position := ⟨p.Position.X + p.Velocity.X * dt,
                                              p.Position.Y + p.Velocity.Y * dt⟩ }) ∧
      (MoveBodies bs dt).length = bs.length ∧
      ∀ j (h : j < bs.length) (h2 : j < (MoveBodies bs dt).length),
        (MoveBodies bs dt)[j].Position =
          ⟨bs[j].Position.X + bs[j].Velocity.X * dt,
           bs[j].Position.Y + bs[j].Velocity.Y * dt⟩ := by
  have hmap := MoveBodies_eq_map_components bs dt
  refine ⟨hmap, by rw [hmap, List.length_map], fun j h h2 => ?_⟩
  simp only [hmap, List.getElem_map]

/-- C2 witness: the lone body at `(1, 2)` with velocity `(3, -1)` is at `(7, 0)`
after `MoveBodies` with `dt = 2`. -/
theorem C2_MoveBodies_position_update_witness :
    ∃ (_ : 0 < (loneBody ℝ).length) (h2 : 0 < (MoveBodies (loneBody ℝ) 2).length),
      (MoveBodies (loneBody ℝ) 2)[0].Position = ⟨7, 0⟩ := by
  have h : 0 < (loneBody ℝ).length := by simp [loneBody]
  have h2 : 0 < (MoveBodies (loneBody ℝ) 2).length := by
    rw [(C2_MoveBodies_position_update (loneBody ℝ) 2).2.1]; exact h
  refine ⟨h, h2, ?_⟩
  rw [(C2_MoveBodies_position_update (loneBody ℝ) 2).2.2 0 h h2]
  norm_num [loneBody]

/-- C3: whenever `ComputeForces` returns, the result has the same number of bodies,
the same masses in the same order and the same positions in the same order;
`MoveBodies` keeps the number of bodies, the masses and the velocities, in order. -/
theorem C3_integrators_frame {α : Type} [LinearOrderedField α] (sqrt : α → α)
    (bs : List (Particle α)) (G dt : α) :
    (∀ bs', ComputeForces sqrt bs G dt = some bs' →
        bs'.length = bs.length ∧
        bs'.map Particle.Mass = bs.map Particle.Mass ∧
        bs'.map Particle.Position = bs.map Particle.Position) ∧
      ((MoveBodies bs dt).length = bs.length ∧
        (MoveBodies bs dt).map Particle.Mass = bs.map Particle.Mass ∧
        (MoveBodies bs dt).map Particle.Velocity = bs.map Particle.Velocity) := by
  constructor
  · intro bs' h
    obtain ⟨e1, e2⟩ := ComputeForces_frame sqrt G dt bs bs' h
    refine ⟨?_, e1, e2⟩
    simpa using congrArg List.length e1
  · rw [MoveBodies_eq_map]
    refine ⟨by simp, ?_, ?_⟩ <;>
    · rw [List.map_map]
      exact List.map_congr_left fun p _ => rfl

/-- C3 witness: on the attraction example `ComputeForces` returns, and the result
has two bodies with the masses `1, 1` and the positions `(0,0), (10,0)`. -/
theorem C3_integrators_frame_witness :
    ∃ bs', ComputeForces Real.sqrt (attractionBodies ℝ) 1 0.01 = some bs' ∧
      bs'.length = 2 ∧ bs'.map Particle.Mass = [1, 1] ∧
      bs'.map Particle.Position = [⟨0, 0⟩, ⟨10, 0⟩] :=
  ⟨_, ComputeForces_attraction,
    (C3_integrators_frame Real.sqrt (attractionBodies ℝ) 1 0.01).1 _ ComputeForces_attraction⟩

/-- C9: scalar division of a `Vector2` (`operator/` and `operator/=`) fails exactly
when the scalar is `0`, so a zero divisor never yields a vector, and for every
non-zero scalar `s` both return the vector `(X * (1/s), Y * (1/s))`. -/
theorem C9_scalar_division {α : Type} [LinearOrderedField α] (v : Vector2 α) (s : α) :
    (v.div s = none ↔ s = 0) ∧ (v.divAssign s = none ↔ s = 0) ∧
    (s ≠ 0 → v.div s = some ⟨v.X * (1 / s), v.Y * (1 / s)⟩ ∧
      v.divAssign s = some ⟨v.X * (1 / s), v.Y * (1 / s)⟩) := by
  refine ⟨?_, ?_, ?_⟩
  · by_cases h : s = 0 <;> simp [Vector2.div, h]
  · by_cases h : s = 0 <;> simp [Vector2.divAssign, Vector2.div, h]
  · intro h
    simp only [Vector2.divAssign, Vector2.div, h, if_false, Vector2.mul,
      mul_comm (1 / s), and_self]

/-- C9 witness: `(4, 6) / 2` is `(4 * (1/2), 6 * (1/2))`, for both operators. -/
theorem C9_scalar_division_witness :
    (2 : ℝ) ≠ 0 ∧
    Vector2.div (⟨4, 6⟩ : Vector2 ℝ) 2 = some ⟨4 * (1 / 2), 6 * (1 / 2)⟩ ∧
    Vector2.divAssign (⟨4, 6⟩ : Vector2 ℝ) 2 = some ⟨4 * (1 / 2), 6 * (1 / 2)⟩ :=
  ⟨by norm_num, (C9_scalar_division (⟨4, 6⟩ : Vector2 ℝ) 2).2.2 (by norm_num)⟩

/-- C16 (amended): over exact arithmetic (no NaN, the default tolerance exactly
`1e-5`), `Equals` is epsilon-tolerant: `a.Equals(b, eps)` is true exactly when
`|a.X - b.X| <= eps` and `|a.Y - b.Y| <= eps`; `operator==` is `Equals` with
`eps = 1e-5` and `operator!=` is its negation. -/
theorem C16_epsilon_equality {α : Type} [LinearOrderedField α] (a b : Vector2 α) (eps : α) :
    (a.Equals b eps = true ↔ |a.X - b.X| ≤ eps ∧ |a.Y - b.Y| ≤ eps) ∧
    a.equalTo b = a.Equals b 1e-5 ∧
    (a.equalTo b = true ↔ |a.X - b.X| ≤ 1e-5 ∧ |a.Y - b.Y| ≤ 1e-5) ∧
    a.notEqualTo b = !(a.equalTo b) ∧
    (a.notEqualTo b = true ↔ a.equalTo b = false) := by
  have key : ∀ e : α, (a.Equals b e = true ↔ |a.X - b.X| ≤ e ∧ |a.Y - b.Y| ≤ e) := by
    intro e
    unfold Vector2.Equals
    by_cases hx : |a.X - b.X| > e
    · simp [hx, not_le.mpr hx]
    · by_cases hy : |a.Y - b.Y| > e
      · simp [hx, hy, not_le.mpr hy]
      · simp [hx, hy, not_lt.mp hx, not_lt.mp hy]
  refine ⟨key eps, rfl, key _, rfl, ?_⟩
  simp [Vector2.notEqualTo]

/-- C18 (amended): over exact real arithmetic, for any two bodies with positive
masses and any positions, the division of line 76 succeeds and the contribution `d / r^3 * mass[k]` accumulated for body `i`
has length at most `mass[k] / r^2`, which is at most
`4 * mass[k] / (mass[i] + mass[k])^2`. -/
theorem C18_contribution_bound (p1 p2 : Particle ℝ) (h1 : 0 < p1.Mass) (h2 : 0 < p2.Mass) :
    ∃ q : Vector2 ℝ,
      (p2.Position.sub p1.Position).div
        (clampedDistance Real.sqrt p1 p2 * clampedDistance Real.sqrt p1 p2 *
          clampedDistance Real.sqrt p1 p2) = some q ∧
      (∀ force, accumulate Real.sqrt p1 p2 force = some (force.addAssign (q.mul p2.Mass))) ∧
      (q.mul p2.Mass).Length Real.sqrt ≤ p2.Mass / clampedDistance Real.sqrt p1 p2 ^ 2 ∧
      p2.Mass / clampedDistance Real.sqrt p1 p2 ^ 2 ≤
        4 * p2.Mass / (p1.Mass + p2.Mass) ^ 2 := by
  have hr := clampedDistance_pos Real.sqrt p1 p2 (add_pos h2 h1)
  have hr3 := clampedDistance_cube_pos Real.sqrt p1 p2 (add_pos h2 h1)
  have hge := clampedDistance_ge Real.sqrt p1 p2
  have hle := Length_le_clampedDistance p1 p2
  have hdiv := div_of_ne (p2.Position.sub p1.Position) _ hr3.ne.symm
  refine ⟨_, hdiv, fun force => ?_, ?_, ?_⟩
  · simp only [accumulate, hdiv, Option.map_some']
  · rw [Length_mul _ _ h2.le, Length_mul _ _ (by positivity)]
    generalize clampedDistance Real.sqrt p1 p2 = r at hr hr3 hge hle
    generalize (p2.Position.sub p1.Position).Length Real.sqrt = L at hle
    have hinv : 1 / (r * r * r) * L ≤ 1 / r ^ 2 := by
      rw [show (1 : ℝ) / r ^ 2 = 1 / (r * r * r) * r by field_simp; ring]
      exact mul_le_mul_of_nonneg_left hle (by positivity)
    calc p2.Mass * (1 / (r * r * r) * L) ≤ p2.Mass * (1 / r ^ 2) :=
          mul_le_mul_of_nonneg_left hinv h2.le
      _ = p2.Mass / r ^ 2 := by ring
  · generalize clampedDistance Real.sqrt p1 p2 = r at hr hge
    have hsum : 0 < p1.Mass + p2.Mass := add_pos h1 h2
    have hge2 : (p1.Mass + p2.Mass) / 2 ≤ r := by
      have : (0.5 : ℝ) * (p2.Mass + p1.Mass) = (p1.Mass + p2.Mass) / 2 := by norm_num; ring
      linarith
    have hsq : (p1.Mass + p2.Mass) ^ 2 ≤ 4 * r ^ 2 := by nlinarith
    rw [div_le_div_iff₀ (by positivity) (by positivity)]
    nlinarith [mul_le_mul_of_nonneg_left hsq h2.le]

/-- C18 witness: masses 3 and 4 at `(0,0)` and `(1,0)`. -/
theorem C18_contribution_bound_witness :
    ∃ q : Vector2 ℝ,
      (Vector2.sub (⟨1, 0⟩ : Vector2 ℝ) ⟨0, 0⟩).div
        (clampedDistance Real.sqrt ⟨⟨0, 0⟩, ⟨0, 0⟩, 3⟩ ⟨⟨1, 0⟩, ⟨0, 0⟩, 4⟩ *
          clampedDistance Real.sqrt ⟨⟨0, 0⟩, ⟨0, 0⟩, 3⟩ ⟨⟨1, 0⟩, ⟨0, 0⟩, 4⟩ *
          clampedDistance Real.sqrt ⟨⟨0, 0⟩, ⟨0, 0⟩, 3⟩ ⟨⟨1, 0⟩, ⟨0, 0⟩, 4⟩) = some q ∧
      (q.mul 4).Length Real.sqrt ≤
        4 / clampedDistance Real.sqrt ⟨⟨0, 0⟩, ⟨0, 0⟩, 3⟩ ⟨⟨1, 0⟩, ⟨0, 0⟩, 4⟩ ^ 2 ∧
      4 / clampedDistance Real.sqrt ⟨⟨0, 0⟩, ⟨0, 0⟩, 3⟩ ⟨⟨1, 0⟩, ⟨0, 0⟩, 4⟩ ^ 2 ≤
        4 * 4 / (3 + 4) ^ 2 := by
  obtain ⟨q, hq, _, hb1, hb2⟩ := C18_contribution_bound
    (⟨⟨0, 0⟩, ⟨0, 0⟩, 3⟩ : Particle ℝ) ⟨⟨1, 0⟩, ⟨0, 0⟩, 4⟩ (by norm_num) (by norm_num)
  exact ⟨q, hq, hb1, hb2⟩

/-- C13 counterexample: for the bodies of mass 3 and 4 at `(0,0)` and `(1,0)` the
displacement is `(1, 0)`, of length 1, the clamped distance is `3.5`, and the vector
`d / r^3` of line 76 is `(8/343, 0)`: its length is `8/343 = 1/3.5^3`, not
`1/r^2 = 4/49`, and it is not `(d / |d|) * (1 / r^2)`. -/
theorem C13_unit_direction_counterexample :
    0 < (clampLight ℝ).Mass ∧ 0 < (clampHeavy ℝ).Mass ∧
    (clampHeavy ℝ).Position.sub (clampLight ℝ).Position = ⟨1, 0⟩ ∧
    ((clampHeavy ℝ).Position.sub (clampLight ℝ).Position).Length Real.sqrt = 1 ∧
    clampedDistance Real.sqrt (clampLight ℝ) (clampHeavy ℝ) = 3.5 ∧
    ((clampHeavy ℝ).Position.sub (clampLight ℝ).Position).div
      (clampedDistance Real.sqrt (clampLight ℝ) (clampHeavy ℝ) *
        clampedDistance Real.sqrt (clampLight ℝ) (clampHeavy ℝ) *
        clampedDistance Real.sqrt (clampLight ℝ) (clampHeavy ℝ)) = some ⟨8 / 343, 0⟩ ∧
    Vector2.Length Real.sqrt (⟨8 / 343, 0⟩ : Vector2 ℝ) = 8 / 343 ∧
    Vector2.Length Real.sqrt (⟨8 / 343, 0⟩ : Vector2 ℝ) ≠
      1 / clampedDistance Real.sqrt (clampLight ℝ) (clampHeavy ℝ) ^ 2 ∧
    (8 / 343 : ℝ) ≠ ((clampHeavy ℝ).Position.sub (clampLight ℝ).Position).X /
        ((clampHeavy ℝ).Position.sub (clampLight ℝ).Position).Length Real.sqrt *
        (1 / clampedDistance Real.sqrt (clampLight ℝ) (clampHeavy ℝ) ^ 2) := by
  have hr := clamp_example_distance
  have hL := clamp_example_length
  have hd : (clampHeavy ℝ).Position.sub (clampLight ℝ).Position = ⟨1, 0⟩ := by
    simp [clampLight, clampHeavy, Vector2.sub]
  have hpos : (0 : ℝ) < 3.5 * 3.5 * 3.5 := by norm_num
  have hlen : Vector2.Length Real.sqrt (⟨8 / 343, 0⟩ : Vector2 ℝ) = 8 / 343 := by
    have h := Length_mul (⟨1, 0⟩ : Vector2 ℝ) (8 / 343) (by norm_num)
    have h1 : Vector2.Length Real.sqrt (⟨1, 0⟩ : Vector2 ℝ) = 1 := by
      simp [Vector2.Length]
    rw [h1] at h
    simpa [Vector2.mul] using h
  refine ⟨by norm_num [clampLight], by norm_num [clampHeavy], hd, hL, hr, ?_, hlen, ?_, ?_⟩
  · rw [div_of_ne _ _ (by rw [hr]; exact hpos.ne.symm), hr, hd]
    norm_num [Vector2.mul]
  · rw [hlen, hr]; norm_num
  · rw [hL, hr, hd]; norm_num

/-- C13 (amended): over exact real arithmetic, for every ordered pair of bodies with
positive masses and non-zero displacement `d`, the division of line 76 succeeds with
a vector `q = d / r^3`, line 76 adds `q * mass[k]` to the force, and `q` has length
`|d| / r^3`.  When the clamp is inactive, `0.5 * (mass[i] + mass[k]) <= |d|`,
then `r = |d|`, the vector is `(d / |d|) * (1 / r^2)` and its length is exactly
`1 / r^2`; when the clamp is active, `|d| < 0.5 * (mass[i] + mass[k])`, its length is
strictly smaller than `1 / r^2`. -/
theorem C13_unit_direction_when_unclamped (p1 p2 : Particle ℝ)
    (h1 : 0 < p1.Mass) (h2 : 0 < p2.Mass)
    (hd : p2.Position.sub p1.Position ≠ ⟨0, 0⟩) :
    ∃ q : Vector2 ℝ,
      (p2.Position.sub p1.Position).div
        (clampedDistance Real.sqrt p1 p2 * clampedDistance Real.sqrt p1 p2 *
          clampedDistance Real.sqrt p1 p2) = some q ∧
      (∀ force, accumulate Real.sqrt p1 p2 force = some (force.addAssign (q.mul p2.Mass))) ∧
      q.Length Real.sqrt =
        (p2.Position.sub p1.Position).Length Real.sqrt / clampedDistance Real.sqrt p1 p2 ^ 3 ∧
      (0.5 * (p1.Mass + p2.Mass) ≤ (p2.Position.sub p1.Position).Length Real.sqrt →
        clampedDistance Real.sqrt p1 p2 = (p2.Position.sub p1.Position).Length Real.sqrt ∧
        q = ⟨(p2.Position.sub p1.Position).X / (p2.Position.sub p1.Position).Length Real.sqrt *
              (1 / clampedDistance Real.sqrt p1 p2 ^ 2),
             (p2.Position.sub p1.Position).Y / (p2.Position.sub p1.Position).Length Real.sqrt *
              (1 / clampedDistance Real.sqrt p1 p2 ^ 2)⟩ ∧
        q.Length Real.sqrt = 1 / clampedDistance Real.sqrt p1 p2 ^ 2) ∧
      ((p2.Position.sub p1.Position).Length Real.sqrt < 0.5 * (p1.Mass + p2.Mass) →
        q.Length Real.sqrt < 1 / clampedDistance Real.sqrt p1 p2 ^ 2) := by
  have hr := clampedDistance_pos Real.sqrt p1 p2 (add_pos h2 h1)
  have hr3 := clampedDistance_cube_pos Real.sqrt p1 p2 (add_pos h2 h1)
  have hL := Length_pos _ hd
  have hlen : ((p2.Position.sub p1.Position).mul
      (1 / (clampedDistance Real.sqrt p1 p2 * clampedDistance Real.sqrt p1 p2 *
        clampedDistance Real.sqrt p1 p2))).Length Real.sqrt =
      (p2.Position.sub p1.Position).Length Real.sqrt / clampedDistance Real.sqrt p1 p2 ^ 3 := by
    rw [Length_mul _ _ (by positivity)]
    ring
  have hmax := clampedDistance_real_length p1 p2
  have hdiv := div_of_ne (p2.Position.sub p1.Position) _ hr3.ne.symm
  refine ⟨_, hdiv, fun force => by simp only [accumulate, hdiv, Option.map_some'], hlen,
    fun hun => ?_, fun hcl => ?_⟩
  · have hrL : clampedDistance Real.sqrt p1 p2 =
        (p2.Position.sub p1.Position).Length Real.sqrt := by
      rw [hmax]
      exact max_eq_right (by rw [add_comm p2.Mass p1.Mass]; exact hun)
    refine ⟨hrL, ?_, ?_⟩
    · rw [hrL]
      simp only [Vector2.mul, Vector2.mk.injEq]
      constructor <;> ring
    · rw [hlen, hrL, div_eq_div_iff (by positivity) (by positivity)]
      ring
  · have hrL : (p2.Position.sub p1.Position).Length Real.sqrt <
        clampedDistance Real.sqrt p1 p2 := by
      rw [hmax]
      exact lt_max_of_lt_left (by rw [add_comm p2.Mass p1.Mass]; exact hcl)
    rw [hlen, div_lt_div_iff₀ (by positivity) (by positivity)]
    have : clampedDistance Real.sqrt p1 p2 ^ 3 =
        clampedDistance Real.sqrt p1 p2 * clampedDistance Real.sqrt p1 p2 ^ 2 := by ring
    rw [this, one_mul]
    exact mul_lt_mul_of_pos_right hrL (by positivity)

/-- C13 witness: the attraction example, masses 1 and 1 at distance 10, where the
clamp is inactive. -/
theorem C13_unit_direction_when_unclamped_witness :
    0 < (restAtOrigin ℝ).Mass ∧ 0 < (restAtTen ℝ).Mass ∧
    (restAtTen ℝ).Position.sub (restAtOrigin ℝ).Position ≠ ⟨0, 0⟩ ∧
    ∃ q : Vector2 ℝ,
      ((restAtTen ℝ).Position.sub (restAtOrigin ℝ).Position).div
        (clampedDistance Real.sqrt (restAtOrigin ℝ) (restAtTen ℝ) *
          clampedDistance Real.sqrt (restAtOrigin ℝ) (restAtTen ℝ) *
          clampedDistance Real.sqrt (restAtOrigin ℝ) (restAtTen ℝ)) = some q ∧
      (∀ force, accumulate Real.sqrt (restAtOrigin ℝ) (restAtTen ℝ) force =
        some (force.addAssign (q.mul (restAtTen ℝ).Mass))) ∧
      q.Length Real.sqrt =
        ((restAtTen ℝ).Position.sub (restAtOrigin ℝ).Position).Length Real.sqrt /
          clampedDistance Real.sqrt (restAtOrigin ℝ) (restAtTen ℝ) ^ 3 := by
  have h1 : 0 < (restAtOrigin ℝ).Mass := by norm_num [restAtOrigin]
  have h2 : 0 < (restAtTen ℝ).Mass := by norm_num [restAtTen]
  have hd : (restAtTen ℝ).Position.sub (restAtOrigin ℝ).Position ≠ ⟨0, 0⟩ := by
    simp [restAtOrigin, restAtTen, Vector2.sub]
  obtain ⟨q, hq, hacc, hlen, _⟩ :=
    C13_unit_direction_when_unclamped (restAtOrigin ℝ) (restAtTen ℝ) h1 h2 hd
  exact ⟨h1, h2, hd, q, hq, hacc, hlen⟩

/-- C19: on a well-formed collection, `ComputeForces(G, dt)`, then `MoveBodies(dt)`,
then `MoveBodies(-dt)`, then `ComputeForces(G, -dt)` all succeed and restore the
collection: every position, velocity and mass has its initial value. -/
theorem C19_reverse_order_undoes_step {α : Type} [LinearOrderedField α] (sqrt : α → α)
    (bs : List (Particle α)) (G dt : α) (hm : ∀ p ∈ bs, 0 < p.Mass) :
    (ComputeForces sqrt bs G dt).bind
        (fun b1 => ComputeForces sqrt (MoveBodies (MoveBodies b1 dt) (-dt)) G (-dt)) =
      some bs := by
  obtain ⟨b1, hb1, hlen, hget⟩ := ComputeForces_closed sqrt bs G dt (mass_pair_pos bs hm)
  have hag : ∀ k (h : k < b1.length) (h2 : k < bs.length),
      b1[k].Position = bs[k].Position ∧ b1[k].Mass = bs[k].Mass := by
    intro k h h2
    rw [hget k h2 h]
    exact ⟨rfl, rfl⟩
  have hpair : ∀ j k (hj : j < b1.length) (hk : k < b1.length), k ≠ j →
      0 < b1[k].Mass + b1[j].Mass := by
    intro j k hj hk hkj
    rw [(hag k hk (hlen ▸ hk)).2, (hag j hj (hlen ▸ hj)).2]
    exact mass_pair_pos bs hm j k (hlen ▸ hj) (hlen ▸ hk) hkj
  obtain ⟨b3, hb3, hlen3, hget3⟩ := ComputeForces_closed sqrt b1 G (-dt) hpair
  rw [hb1, Option.some_bind, MoveBodies_neg, hb3]
  congr 1
  apply List.ext_getElem (hlen3.trans hlen)
  intro i h1 h2
  have hi : i < b1.length := hlen ▸ h2
  rw [hget3 i hi h1, netForce_congr sqrt b1 bs i b1[i] hlen hag,
    netForce_congr_body sqrt bs i b1[i] bs[i] (hag i hi h2).1 (hag i hi h2).2]
  exact integrated_neg G dt bs[i] b1[i] _ (hget i h2 hi)

/-- C19 witness: the attraction example with `G = 1`, `dt = 0.01`. -/
theorem C19_reverse_order_undoes_step_witness :
    (∀ p ∈ attractionBodies ℝ, 0 < p.Mass) ∧
    (ComputeForces Real.sqrt (attractionBodies ℝ) 1 0.01).bind
        (fun b1 => ComputeForces Real.sqrt (MoveBodies (MoveBodies b1 0.01) (-0.01)) 1 (-0.01)) =
      some (attractionBodies ℝ) :=
  ⟨by simp [attractionBodies],
   C19_reverse_order_undoes_step Real.sqrt (attractionBodies ℝ) 1 0.01
     (by simp [attractionBodies])⟩

/-- C20: on a well-formed collection, for every `G`, `dt` and offset `t`,
`ComputeForces` succeeds both on the collection and on the collection with `t` added
to every position, and the resulting velocities are the same, body by body. -/
theorem C20_translation_invariance {α : Type} [LinearOrderedField α] (sqrt : α → α)
    (bs : List (Particle α)) (G dt : α) (t : Vector2 α) (hm : ∀ p ∈ bs, 0 < p.Mass) :
    ∃ b1 b2, ComputeForces sqrt bs G dt = some b1 ∧
      ComputeForces sqrt (bs.map fun p => { p with Position := p.Position.add t }) G dt =
        some b2 ∧
      b2.map Particle.Velocity = b1.map Particle.Velocity := by
  have h1 := ComputeForces_ofFn sqrt bs G dt (mass_pair_pos bs hm)
  have hm2 : ∀ p ∈ bs.map (translated t), 0 < p.Mass := by
    intro p hp
    obtain ⟨q, hq, rfl⟩ := List.mem_map.mp hp
    exact hm q hq
  have h2 := ComputeForces_ofFn sqrt (bs.map (translated t)) G dt (mass_pair_pos _ hm2)
  refine ⟨_, _, h1, h2, ?_⟩
  apply List.ext_getElem
  · simp
  · intro i hi1 hi2
    simp only [List.getElem_map, List.getElem_ofFn, Fin.getElem_fin, netForce_translated]
    rfl

/-- C20 witness: the attraction example shifted by `(5, -3)`. -/
theorem C20_translation_invariance_witness :
    (∀ p ∈ attractionBodies ℝ, 0 < p.Mass) ∧
    ∃ b1 b2, ComputeForces Real.sqrt (attractionBodies ℝ) 1 0.01 = some b1 ∧
      ComputeForces Real.sqrt [⟨⟨5, -3⟩, ⟨0, 0⟩, 1⟩, ⟨⟨15, -3⟩, ⟨0, 0⟩, 1⟩] 1 0.01 = some b2 ∧
      b2.map Particle.Velocity = b1.map Particle.Velocity := by
  have hm : ∀ p ∈ attractionBodies ℝ, 0 < p.Mass := by simp [attractionBodies]
  obtain ⟨b1, b2, h1, h2, h3⟩ :=
    C20_translation_invariance Real.sqrt (attractionBodies ℝ) 1 0.01 ⟨5, -3⟩ hm
  refine ⟨hm, b1, b2, h1, ?_, h3⟩
  rw [← h2]
  norm_num [attractionBodies, Vector2.add]

/-- C14 counterexample: on the attraction example (masses 1, at rest at `(0,0)` and
`(10,0)`) one step with `G = 1`, `dt = 10` followed by one step with `dt = -10` does
not restore the start: the first body ends at `(25/16, 0)` with velocity
`(-9/160, 0)` instead of `(0, 0)` and `(0, 0)`. -/
theorem C14_negative_step_counterexample :
    (∀ p ∈ attractionBodies ℝ, 0 < p.Mass) ∧
    simulationStep Real.sqrt 1 10 (attractionBodies ℝ) = some (afterForwardStep ℝ) ∧
    simulationStep Real.sqrt 1 (-10) (afterForwardStep ℝ) = some (afterBackwardStep ℝ) ∧
    (simulationStep Real.sqrt 1 10 (attractionBodies ℝ)).bind (simulationStep Real.sqrt 1 (-10))
      ≠ some (attractionBodies ℝ) := by
  refine ⟨by simp [attractionBodies], forward_step_attraction, backward_step_attraction, ?_⟩
  rw [forward_step_attraction, Option.some_bind, backward_step_attraction]
  intro h
  have h2 := congrArg (fun l => l.map (fun p => p.Position.X)) (Option.some.inj h)
  norm_num [afterBackwardStep, attractionBodies] at h2

/-- C14 (amended): on a well-formed collection, for every `G` and `dt` (negative
values included), one step with `dt` followed by one step with `-dt` succeeds and
keeps the number of bodies and every mass; when no force acts (`G = 0`, or at most
one body) it returns every body to its starting position and velocity. -/
theorem C14_negative_step_without_force {α : Type} [LinearOrderedField α] (sqrt : α → α)
    (bs : List (Particle α)) (G dt : α) (hm : ∀ p ∈ bs, 0 < p.Mass) :
    ∃ b, (simulationStep sqrt G dt bs).bind (simulationStep sqrt G (-dt)) = some b ∧
      b.length = bs.length ∧ b.map Particle.Mass = bs.map Particle.Mass ∧
      ((G = 0 ∨ bs.length ≤ 1) → b = bs) := by
  obtain ⟨b1, hb1, hm1⟩ := simulationStep_ok sqrt bs G dt hm
  obtain ⟨b2, hb2, hm2⟩ :=
    simulationStep_ok sqrt b1 G (-dt) (mass_pos_of_map_eq b1 bs hm1 hm)
  have hbind : (simulationStep sqrt G dt bs).bind (simulationStep sqrt G (-dt)) = some b2 := by
    rw [hb1, Option.some_bind, hb2]
  refine ⟨b2, hbind, ?_, hm2.trans hm1, fun hcase => ?_⟩
  · simpa using congrArg List.length (hm2.trans hm1)
  · have hid : ComputeForces sqrt bs G dt = some bs := by
      rcases hcase with hG | hn
      · rw [hG]; exact ComputeForces_zero_G sqrt bs dt hm
      · exact ComputeForces_small sqrt bs G dt hn
    have hb1eq : b1 = MoveBodies bs dt := by
      have := hb1
      simp only [simulationStep, hid, Option.map_some', Option.some.injEq] at this
      exact this.symm
    have hlen1 : (MoveBodies bs dt).length = bs.length := by
      rw [MoveBodies_eq_map, List.length_map]
    have hid2 : ComputeForces sqrt (MoveBodies bs dt) G (-dt) = some (MoveBodies bs dt) := by
      rcases hcase with hG | hn
      · rw [hG]
        exact ComputeForces_zero_G sqrt _ (-dt) (hb1eq ▸ mass_pos_of_map_eq b1 bs hm1 hm)
      · exact ComputeForces_small sqrt _ G (-dt) (hlen1 ▸ hn)
    have := hb2
    rw [hb1eq] at this
    simp only [simulationStep, hid2, Option.map_some', Option.some.injEq, MoveBodies_neg] at this
    exact this.symm

/-- C14 witness: the two drifting bodies with `G = 0`, `dt = 2`. -/
theorem C14_negative_step_without_force_witness :
    (∀ p ∈ driftingBodies ℝ, 0 < p.Mass) ∧
    (simulationStep Real.sqrt 0 2 (driftingBodies ℝ)).bind (simulationStep Real.sqrt 0 (-2)) =
      some (driftingBodies ℝ) := by
  have hm : ∀ p ∈ driftingBodies ℝ, 0 < p.Mass := by simp [driftingBodies]
  obtain ⟨b, hb, _, _, hcase⟩ :=
    C14_negative_step_without_force Real.sqrt (driftingBodies ℝ) 0 2 hm
  rw [hcase (Or.inl rfl)] at hb
  exact ⟨hm, hb⟩

/-- C11: the order of the collection is irrelevant to `ComputeForces`: if `bs` is
well formed and `cs` is `bs` rearranged by a permutation `σ` (`cs[i] = bs[σ i]`), then
`ComputeForces` succeeds on both and the result for `cs` is the result for `bs`
rearranged by the same permutation (`cs'[i] = bs'[σ i]`). -/
theorem C11_permutation_equivariance {α : Type} [LinearOrderedField α] (sqrt : α → α)
    (bs cs : List (Particle α)) (G dt : α) (σ : Equiv.Perm (Fin bs.length))
    (hm : ∀ p ∈ bs, 0 < p.Mass) (hlen : cs.length = bs.length)
    (hperm : ∀ i (h : i < cs.length) (h2 : i < bs.length), cs[i] = bs[σ ⟨i, h2⟩]) :
    ∃ bs' cs', ComputeForces sqrt bs G dt = some bs' ∧ ComputeForces sqrt cs G dt = some cs' ∧
      bs'.length = bs.length ∧ cs'.length = bs.length ∧
      ∀ i (h : i < cs'.length) (h2 : i < bs.length) (h3 : (σ ⟨i, h2⟩).val < bs'.length),
        cs'[i] = bs'[(σ ⟨i, h2⟩).val] := by
  have hmc : ∀ p ∈ cs, 0 < p.Mass := by
    intro p hp
    obtain ⟨i, hi, rfl⟩ := List.getElem_of_mem hp
    rw [hperm i hi (hlen ▸ hi)]
    exact hm _ (List.getElem_mem _)
  obtain ⟨b1, hb1, hl1, hg1⟩ := ComputeForces_closed sqrt bs G dt (mass_pair_pos bs hm)
  obtain ⟨c1, hc1, hl1c, hg1c⟩ := ComputeForces_closed sqrt cs G dt (mass_pair_pos cs hmc)
  refine ⟨b1, c1, hb1, hc1, hl1, hl1c.trans hlen, fun i h h2 h3 => ?_⟩
  have hi : i < cs.length := hlen ▸ h2
  rw [hg1c i hi h, hg1 _ (σ ⟨i, h2⟩).isLt h3, netForce_perm sqrt bs cs σ hlen hperm i hi h2,
    hperm i hi h2]
  rfl

/-- C17: `ComputeForces` conserves total linear momentum: on a well-formed collection
of any size, for every `G` and `dt`, it succeeds and the sum over all bodies of
`mass[i] * velocity[i]` is the same before and after, in both components. -/
theorem C17_momentum_conservation {α : Type} [LinearOrderedField α] (sqrt : α → α)
    (bs : List (Particle α)) (G dt : α) (hm : ∀ p ∈ bs, 0 < p.Mass) :
    ∃ bs', ComputeForces sqrt bs G dt = some bs' ∧
      (bs'.map fun p => p.Mass * p.Velocity.X).sum =
        (bs.map fun p => p.Mass * p.Velocity.X).sum ∧
      (bs'.map fun p => p.Mass * p.Velocity.Y).sum =
        (bs.map fun p => p.Mass * p.Velocity.Y).sum := by
  refine ⟨_, ComputeForces_ofFn sqrt bs G dt (mass_pair_pos bs hm), ?_, ?_⟩
  · rw [List.map_ofFn, List.sum_ofFn, ← Fin.sum_univ_get' bs]
    have hsplit : ∀ i : Fin bs.length,
        ((fun p : Particle α => p.Mass * p.Velocity.X) ∘
          fun i : Fin bs.length => integrated G dt bs[i] (netForce sqrt bs i bs[i])) i =
        bs[i].Mass * bs[i].Velocity.X +
          dt * G * (bs[i].Mass * (netForce sqrt bs i bs[i]).X) := by
      intro i
      simp only [Function.comp, integrated, Vector2.addAssign, Vector2.add, Vector2.mul]
      ring
    rw [Finset.sum_congr rfl fun i _ => hsplit i, Finset.sum_add_distrib, ← Finset.mul_sum,
      weighted_netForce_X, mul_zero, add_zero]
    rfl
  · rw [List.map_ofFn, List.sum_ofFn, ← Fin.sum_univ_get' bs]
    have hsplit : ∀ i : Fin bs.length,
        ((fun p : Particle α => p.Mass * p.Velocity.Y) ∘
          fun i : Fin bs.length => integrated G dt bs[i] (netForce sqrt bs i bs[i])) i =
        bs[i].Mass * bs[i].Velocity.Y +
          dt * G * (bs[i].Mass * (netForce sqrt bs i bs[i]).Y) := by
      intro i
      simp only [Function.comp, integrated, Vector2.addAssign, Vector2.add, Vector2.mul]
      ring
    rw [Finset.sum_congr rfl fun i _ => hsplit i, Finset.sum_add_distrib, ← Finset.mul_sum,
      weighted_netForce_Y, mul_zero, add_zero]
    rfl

/-- C17 witness: the two drifting bodies (masses 3 and 4, velocities `(1,2)` and
`(-1,0)`) keep the total momentum `(-1, 6)` under `ComputeForces` with `G = 1`,
`dt = 1`. -/
theorem C17_momentum_conservation_witness :
    (∀ p ∈ driftingBodies ℝ, 0 < p.Mass) ∧
    ∃ bs', ComputeForces Real.sqrt (driftingBodies ℝ) 1 1 = some bs' ∧
      (bs'.map fun p => p.Mass * p.Velocity.X).sum = -1 ∧
      (bs'.map fun p => p.Mass * p.Velocity.Y).sum = 6 := by
  have hm : ∀ p ∈ driftingBodies ℝ, 0 < p.Mass := by simp [driftingBodies]
  obtain ⟨b, hb, hx, hy⟩ := C17_momentum_conservation Real.sqrt (driftingBodies ℝ) 1 1 hm
  refine ⟨hm, b, hb, ?_, ?_⟩
  · rw [hx]; norm_num [driftingBodies]
  · rw [hy]; norm_num [driftingBodies]

/-- C11 witness: the clamp example and its reversal, related by the swap of the two
indices. -/
theorem C11_permutation_equivariance_witness :
    (∀ p ∈ clampBodies ℝ, 0 < p.Mass) ∧
    ∃ (bs' cs' : List (Particle ℝ)) (h0 : 0 < cs'.length) (h1 : 1 < bs'.length),
      ComputeForces Real.sqrt (clampBodies ℝ) 1 1 = some bs' ∧
      ComputeForces Real.sqrt [clampHeavy ℝ, clampLight ℝ] 1 1 = some cs' ∧
      cs'[0] = bs'[1] := by
  have hm : ∀ p ∈ clampBodies ℝ, 0 < p.Mass := by simp [clampBodies]
  have hperm : ∀ i (h : i < [clampHeavy ℝ, clampLight ℝ].length)
      (h2 : i < (clampBodies ℝ).length),
      [clampHeavy ℝ, clampLight ℝ][i] =
        (clampBodies ℝ)[(Equiv.swap (⟨0, by decide⟩ : Fin (clampBodies ℝ).length)
          ⟨1, by decide⟩) ⟨i, h2⟩] := by
    intro i h h2
    have h3 : i < 2 := h
    interval_cases i
    · rw [Equiv.swap_apply_left]; rfl
    · rw [Equiv.swap_apply_right]; rfl
  obtain ⟨b, c, hb, hc, hlb, hlc, hall⟩ :=
    C11_permutation_equivariance Real.sqrt (clampBodies ℝ) [clampHeavy ℝ, clampLight ℝ] 1 1
      (Equiv.swap ⟨0, by decide⟩ ⟨1, by decide⟩) hm rfl hperm
  have h0 : 0 < c.length := by rw [hlc]; decide
  have h1 : 1 < b.length := by rw [hlb]; decide
  refine ⟨hm, b, c, h0, h1, hb, hc, ?_⟩
  have := hall 0 h0 (by decide) (by rw [Equiv.swap_apply_left]; exact h1)
  rw [this]
  congr 1

/-! ### Binary32 counterexamples

Each theorem evaluates the binary32 embedding of the program at one input. -/

set_option maxRecDepth 100000 in
/-- C16 counterexample: in binary32, `Vector2(NaN, 0).Equals(Vector2(5, 0))` with the
default tolerance: `fabs(NaN - 5) > eps` is false, so `Equals` and `operator==` return
true, although `|a.X - b.X| <= eps` is false. -/
theorem C16_epsilon_equality_counterexample :
    Binary32.Equals ⟨F32.nan, Binary32.zero⟩ ⟨F32.ofNat 5, Binary32.zero⟩
      Binary32.defaultEpsilon = true ∧
    Binary32.equalTo ⟨F32.nan, Binary32.zero⟩ ⟨F32.ofNat 5, Binary32.zero⟩ = true ∧
    F32.le (F32.abs (F32.sub F32.nan (F32.ofNat 5))) Binary32.defaultEpsilon = false ∧
    Binary32.defaultEpsilon = F32.finite false 10995116 (-40) := by
  decide

set_option maxRecDepth 100000 in
/-- C18 counterexample: in binary32, bodies of mass `2^-48` at `(0, 0)` and
`(2^-50, 0)`: the clamped distance is `2^-48`, its cube `2^-144` is subnormal,
`1 / 2^-144` overflows to an infinity, and the contribution accumulated for the first
body is `(inf, NaN)`: its first component exceeds the bound
`mass[k] / r^2 = 4 * mass[k] / (mass[i] + mass[k])^2 = 2^48`, and its length is NaN. -/
theorem C18_contribution_bound_counterexample :
    F32.lt Binary32.zero (F32.pow2 (-48)) = true ∧
    Binary32.clampedDistance Binary32.closeLeft Binary32.closeRight = F32.pow2 (-48) ∧
    F32.mul (F32.mul (F32.pow2 (-48)) (F32.pow2 (-48))) (F32.pow2 (-48)) = F32.pow2 (-144) ∧
    F32.div Binary32.one (F32.pow2 (-144)) = F32.inf false ∧
    Binary32.accumulate Binary32.closeLeft Binary32.closeRight ⟨Binary32.zero, Binary32.zero⟩ =
      some ⟨F32.inf false, F32.nan⟩ ∧
    F32.div (F32.pow2 (-48)) (F32.mul (F32.pow2 (-48)) (F32.pow2 (-48))) = F32.pow2 48 ∧
    F32.div (F32.mul (F32.ofNat 4) (F32.pow2 (-48)))
      (F32.mul (F32.add (F32.pow2 (-48)) (F32.pow2 (-48)))
        (F32.add (F32.pow2 (-48)) (F32.pow2 (-48)))) = F32.pow2 48 ∧
    F32.lt (F32.pow2 48) (F32.inf false) = true ∧
    Binary32.Length ⟨F32.inf false, F32.nan⟩ = F32.nan ∧
    F32.le (Binary32.Length ⟨F32.inf false, F32.nan⟩) (F32.pow2 48) = false := by
  decide

end Claims
